import Mathlib

/-!
Verification of the data-aggregation pipeline of the `identity-reporting`
dashboard (daily-auths report, daily-dropoffs funnel report, account-deletions
report).  The TypeScript sources are shallowly embedded:

* Dates are UTC day numbers (`ℕ`, days since 1970-01-01); all report dates are
  midnight-aligned, so d3's `utcDays` walks them one by one.
* JavaScript number results of divisions are modelled by `JsNum`
  (finite rational, `NaN`, or `Infinity`); all counts are naturals.
* JavaScript's stable `Array.prototype.sort` is modelled by a stable insertion
  sort `sortWith`; d3's `ascending` (comparison by `<` on strings, i.e.
  code-unit order) is modelled via the lexicographic order on `List Char`.
* d3's `group`/`rollup` build insertion-ordered Maps: `groupBy` returns the
  keys in first-occurrence order, each paired with the sublist of elements
  having that key, in their original order.
-/

/-! ### Definitions: embedded data model and operations -/

/-- JavaScript number outcomes relevant to the reports: a finite (rational)
value, `NaN`, or `Infinity`. -/
inductive JsNum where
  | val (q : ℚ)
  | nan
  | inf
deriving DecidableEq, Repr

/-- JavaScript division `a / b` of two non-negative counts: `0 / 0` is `NaN`,
`n / 0` is `Infinity` for `n ≠ 0`, otherwise the exact quotient. -/
def jsDiv (a b : ℕ) : JsNum :=
  if b = 0 then (if a = 0 then JsNum.nan else JsNum.inf)
  else JsNum.val ((a : ℚ) / (b : ℚ))

/-- JavaScript `x || 0` on a number: `NaN` (falsy) becomes `0`, `0` stays `0`,
everything else (including `Infinity`) is kept. -/
def jsOr0 : JsNum → JsNum
  | JsNum.nan => JsNum.val 0
  | JsNum.val q => JsNum.val q
  | JsNum.inf => JsNum.inf

/-- JavaScript `s || dflt` for a possibly-missing string field: `undefined`
(`none`) and the empty string are falsy and replaced by the default. -/
def jsOrStr (s : Option String) (dflt : String) : String :=
  match s with
  | none => dflt
  | some s => if s = "" then dflt else s

/-- String comparison by `<` as d3's `ascending` performs it, modelled on the
character list (code-unit order; case-sensitive). -/
def strLtb (a b : String) : Bool := decide (a.data < b.data)

/-- d3 `ascending(a, b)` on strings: `-1`, `1` or `0`. -/
def ascendingStr (a b : String) : Int :=
  if strLtb a b then -1 else if strLtb b a then 1 else 0

/-! ### Stable insertion sort, modelling JavaScript's stable `Array.sort` -/
/-- Insert `a` into `l` directly before the first element `b` with
`lt a b`; later elements equal (w.r.t. `lt`) to `a` are passed over, which
makes the overall sort stable. -/
def insertSorted (lt : α → α → Bool) (a : α) : List α → List α
  | [] => [a]
  | b :: l => if lt a b then a :: b :: l else b :: insertSorted lt a l

/-- Stable sort: fold the list left-to-right, inserting each element into the
sorted prefix. -/
def sortWith (lt : α → α → Bool) (l : List α) : List α :=
  l.foldl (fun acc a => insertSorted lt a acc) []

/-- `l` is sorted w.r.t. the strict comparator `lt`: no later element is
strictly below an earlier one. -/
def SortedB (lt : α → α → Bool) (l : List α) : Prop :=
  l.Pairwise (fun a b => lt b a = false)

/-! ### Insertion-ordered grouping, modelling d3 `group` / JS `Map` -/
/-- Append a key to the key list unless already present (JS `Map` key order:
insertion order, first occurrence wins). -/
def keyInsert [DecidableEq κ] (ks : List κ) (k : κ) : List κ :=
  if k ∈ ks then ks else ks ++ [k]

/-- The distinct keys of `l` under `key`, in first-occurrence order. -/
def keyOrder [DecidableEq κ] (key : α → κ) (l : List α) : List κ :=
  l.foldl (fun ks r => keyInsert ks (key r)) []

/-- d3 `group(l, key)` as a list of `(key, bin)` pairs: keys in
first-occurrence order, each bin keeping the original element order. -/
def groupBy [DecidableEq κ] (key : α → κ) (l : List α) : List (κ × List α) :=
  (keyOrder key l).map (fun k => (k, l.filter (fun r => key r = k)))

/-! ### UTC calendar dates (day numbers since 1970-01-01) -/
/-- Convert a day number since 1970-01-01 to `(year, month, day)` in the
proleptic Gregorian calendar (Howard Hinnant's `civil_from_days`,
restricted to the era ≥ 1970 so all arithmetic stays in `ℕ`). -/
def civilFromDays (z : ℕ) : ℕ × ℕ × ℕ :=
  let z' := z + 719468
  let era := z' / 146097
  let doe := z' % 146097
  let yoe := (doe - doe / 1460 + doe / 36524 - doe / 146096) / 365
  let y := yoe + era * 400
  let doy := doe - (365 * yoe + yoe / 4 - yoe / 100)
  let mp := (5 * doy + 2) / 153
  let d := doy - (153 * mp + 2) / 5 + 1
  let m := if mp < 10 then mp + 3 else mp - 9
  (if m ≤ 2 then y + 1 else y, m, d)

/-- Zero-pad a number to two digits. -/
def pad2 (n : ℕ) : String := if n < 10 then "0" ++ toString n else toString n

/-- d3 `utcFormat("%Y-%m-%d")` on a midnight-aligned UTC date. -/
def yearMonthDayFormat (date : ℕ) : String :=
  let c := civilFromDays date
  toString c.1 ++ "-" ++ pad2 c.2.1 ++ "-" ++ pad2 c.2.2

/-- d3 `utcDays(start, finish, 1)`: every UTC day boundary `d` with
`start ≤ d < finish` — the finish day is excluded. -/
def utcDays (start finish : ℕ) : List ℕ :=
  (List.range (finish - start)).map (fun i => start + i)

/-- Sequence per-day fetch results as `Promise.all` does: the first (earliest)
rejection rejects the whole batch, otherwise all per-day payloads are
collected in day order. -/
def collectDays (days : List ℕ) (resp : ℕ → Except ε ρ) : Except ε (List ρ) :=
  match days with
  | [] => Except.ok []
  | d :: ds =>
      match resp d, collectDays ds resp with
      | Except.error e, _ => Except.error e
      | Except.ok _, Except.error e => Except.error e
      | Except.ok x, Except.ok xs => Except.ok (x :: xs)

/-! ### Comparators as used with `Array.sort` (d3 `ascending`, JS `||` chaining) -/
/-- JS `i || j` on comparator results: `0` is falsy. -/
def jsOrInt (i j : Int) : Int := if i = 0 then j else i

/-- Sort predicate from a single string key (`(a, b) => ascending(k a, k b)`). -/
def ltByKey (k : α → String) (a b : α) : Bool :=
  decide (ascendingStr (k a) (k b) < 0)

/-- Sort predicate from two string keys chained with `||`
(`ascending(k1 a, k1 b) || ascending(k2 a, k2 b)`). -/
def ltByKey2 (k1 k2 : α → String) (a b : α) : Bool :=
  decide (jsOrInt (ascendingStr (k1 a) (k1 b)) (ascendingStr (k2 a) (k2 b)) < 0)

/-- Numeric ascending comparator `(a, b) => a - b` on day numbers. -/
def ltNat (a b : ℕ) : Bool := decide (a < b)

/-! ### Table cells -/
/-- A display cell of a produced table.  Purely-presentational attributes of
the source JSX (colors, CSS classes, `data-csv` export annotations, link
targets derived from `window.location`) are elided; the displayed payload is
kept.  `span` is the daily-auths App cell (`title` = issuer, text = friendly
name from the issuer→friendly-name map, `none` when absent); `csvSpan` is the
funnel App cell; `thSpan` is a header cell with an explicit `colSpan`. -/
inductive Cell where
  | str (s : String)
  | nat (n : ℕ)
  | span (title : String) (text : Option String)
  | link (agency : String)
  | csvSpan (issuer friendly : String)
  | thSpan (colSpan : ℕ) (title : String)
  | tdNat (n : ℕ)
  | tdPct (p : JsNum)
  | tdStr (s : String)
deriving DecidableEq, Repr

/-- The column width of a cell in the rendered grid (`colSpan`). -/
def Cell.colSpanOf : Cell → ℕ
  | Cell.thSpan c _ => c
  | _ => 1

/-- The `TableData` record consumed by the `Table` component. -/
structure TableData where
  header : List Cell
  body : List (List Cell)
  footer : Option (List Cell) := none
deriving DecidableEq, Repr

/-- Total number of grid columns spanned by a row of cells. -/
def colSpanLen (row : List Cell) : ℕ := (row.map Cell.colSpanOf).sum

namespace DailyAuths

/-- One row of the daily-auths JSON report (`Result` in
`daily-auths-report.tsx`); `iaa` is present but unused. -/
structure Result where
  count : ℕ
  ial : ℕ
  issuer : String
  iaa : Option String
  friendly_name : String
  agency : String
deriving DecidableEq, Repr

/-- The payload of one day's `daily-auths-report` JSON file; `start`/`finish`
are the report's own timestamps (day numbers here). -/
structure DailyAuthsReportData where
  results : List Result
  start : ℕ
  finish : ℕ
deriving DecidableEq, Repr

/-- A result row tagged with its source date (`ProcessedResult`). -/
structure ProcessedResult extends Result where
  date : ℕ
deriving DecidableEq, Repr

/-- `process`: tag every row with the report's `start` date and default a
missing (empty) agency; `issuer` and `friendly_name` are passed through. -/
def process (report : DailyAuthsReportData) : List ProcessedResult :=
  let date := report.start
  report.results.map (fun r =>
    { toResult := { r with agency := jsOrStr (some r.agency) "(No Agency)" },
      date := date })

/-- The days for which `loadData` issues a fetch: it maps one `fetch` per
element of `utcDays(start, finish, 1)`. -/
def fetchedDays (start finish : ℕ) : List ℕ := utcDays start finish

/-- `loadData`: fetch one report per day (the per-day responses are supplied
by `resp`, standing for `fetch(path).then(r => r.json())`), join them as
`Promise.all`, then flat-map `process` over the reports. -/
def loadData (start finish : ℕ) (resp : ℕ → Except String DailyAuthsReportData) :
    Except String (List ProcessedResult) :=
  (collectDays (fetchedDays start finish) resp).map
    (fun reports => reports.flatMap (fun r => process r))

/-- The filter predicate of `tabulate`: JS `!filterAgency` is true for an
absent or empty-string agency, `!filterIal` for an absent or zero IAL. -/
def passAgency (filterAgency : Option String) (d : ProcessedResult) : Bool :=
  match filterAgency with
  | none => true
  | some a => if a = "" then true else d.agency = a

def passIal (filterIal : Option ℕ) (d : ProcessedResult) : Bool :=
  match filterIal with
  | none => true
  | some i => if i = 0 then true else d.ial = i

/-- The `issuerToFriendlyName` Map: built by `forEach`/`set`, so the last
occurrence of an issuer wins; `get` on an absent issuer is `undefined`. -/
def issuerToFriendlyName (l : List ProcessedResult) (issuer : String) : Option String :=
  ((l.filter (fun d => d.issuer = issuer)).getLast?).map (fun d => d.friendly_name)

/-- `tabulate` from `daily-auths-report.tsx`: filter, collect the distinct
dates (sorted), group by agency → issuer → IAL (agencies and issuers sorted
ascending), and emit one row per (agency, issuer, IAL) whose day cells take
the **first** matching result's count (`data.filter(...)[0]?.count ?? 0`),
followed by a row total; header gains a trailing "Total" column. -/
def tabulate (results : Option (List ProcessedResult)) (filterAgency : Option String)
    (filterIal : Option ℕ) : TableData :=
  let filteredResults := (results.getD []).filter
    (fun d => passAgency filterAgency d && passIal filterIal d)
  let days := sortWith ltNat (keyOrder (fun d => d.date) filteredResults)
  let header := [Cell.str "Agency", Cell.str "App", Cell.str "IAL"]
      ++ days.map (fun d => Cell.str (yearMonthDayFormat d)) ++ [Cell.str "Total"]
  let body := (sortWith (ltByKey (fun g => g.1))
      (groupBy (fun d => d.agency) filteredResults)).flatMap
    (fun ag => (sortWith (ltByKey (fun g => g.1))
        (groupBy (fun d => d.issuer) ag.2)).flatMap
      (fun is => (groupBy (fun d => d.ial) is.2).map
        (fun il =>
          let dayCounts := days.map (fun date =>
            (((il.2.filter (fun d => d.date = date)).head?).map (fun d => d.count)).getD 0)
          [Cell.str ag.1, Cell.span is.1 (issuerToFriendlyName filteredResults is.1),
            Cell.str (toString il.1)]
            ++ dayCounts.map Cell.nat
            ++ [Cell.nat (dayCounts.foldl (fun d total => d + total) 0)])))
  { header := header, body := body }

/-- Specification-side variant of `tabulate` (identical shape) whose day cells
are the **sum** of the counts of all rows of the group on that day, as §4.1 of
the spec describes the aggregator. -/
def tabulateSummed (results : Option (List ProcessedResult)) (filterAgency : Option String)
    (filterIal : Option ℕ) : TableData :=
  let filteredResults := (results.getD []).filter
    (fun d => passAgency filterAgency d && passIal filterIal d)
  let days := sortWith ltNat (keyOrder (fun d => d.date) filteredResults)
  let header := [Cell.str "Agency", Cell.str "App", Cell.str "IAL"]
      ++ days.map (fun d => Cell.str (yearMonthDayFormat d)) ++ [Cell.str "Total"]
  let body := (sortWith (ltByKey (fun g => g.1))
      (groupBy (fun d => d.agency) filteredResults)).flatMap
    (fun ag => (sortWith (ltByKey (fun g => g.1))
        (groupBy (fun d => d.issuer) ag.2)).flatMap
      (fun is => (groupBy (fun d => d.ial) is.2).map
        (fun il =>
          let dayCounts := days.map (fun date =>
            ((il.2.filter (fun d => d.date = date)).map (fun d => d.count)).sum)
          [Cell.str ag.1, Cell.span is.1 (issuerToFriendlyName filteredResults is.1),
            Cell.str (toString il.1)]
            ++ dayCounts.map Cell.nat
            ++ [Cell.nat (dayCounts.foldl (fun d total => d + total) 0)])))
  { header := header, body := body }

/-- First-match association lookup, modelling JS `Map.get` on a map whose
entries were produced with distinct keys. -/
def lookupFirst [DecidableEq κ] (l : List (κ × β)) (k : κ) : Option β :=
  ((l.filter (fun g => g.1 = k)).head?).map (fun g => g.2)

/-- `tabulateSumByAgency`: `rollup` by agency → IAL → formatted day, summing
`count` over each bin; agencies sorted ascending; day cells are
`ialDays.get(day) || 0`. -/
def tabulateSumByAgency (results : Option (List ProcessedResult))
    (filterIal : Option ℕ) : TableData :=
  let filteredResults := (results.getD []).filter (fun d => passIal filterIal d)
  let days := sortWith ltNat (keyOrder (fun d => d.date) filteredResults)
  let header := [Cell.str "Agency", Cell.str "IAL"]
      ++ days.map (fun d => Cell.str (yearMonthDayFormat d)) ++ [Cell.str "Total"]
  let body := (sortWith (ltByKey (fun g => g.1))
      (groupBy (fun d => d.agency) filteredResults)).flatMap
    (fun ag => (groupBy (fun d => d.ial) ag.2).map
      (fun il =>
        let ialDays := (groupBy (fun d => yearMonthDayFormat d.date) il.2).map
          (fun g => (g.1, g.2.foldl (fun sum d => sum + d.count) 0))
        let dayCounts := days.map (fun date =>
          (lookupFirst ialDays (yearMonthDayFormat date)).getD 0)
        [Cell.link ag.1, Cell.str (toString il.1)]
          ++ dayCounts.map Cell.nat
          ++ [Cell.nat (dayCounts.foldl (fun d total => d + total) 0)]))
  { header := header, body := body }

end DailyAuths

/-! ### `Array.map`/`flatMap` with element index -/
/-- `l.map((x, idx) => f idx x)` starting at index `n`. -/
def mapIdxFrom (f : ℕ → α → β) (n : ℕ) : List α → List β
  | [] => []
  | a :: l => f n a :: mapIdxFrom f (n + 1) l

namespace DailyDropoffs

/-- The identity-proofing funnel steps (`enum Step`). -/
inductive Step where
  | welcome
  | agreement
  | capture_document
  | cap_doc_submit
  | ssn
  | verify_info
  | verify_submit
  | phone
  | encrypt
  | personal_key
  | verified
deriving DecidableEq, Repr

instance : Fintype Step :=
  ⟨⟨{Step.welcome, Step.agreement, Step.capture_document, Step.cap_doc_submit, Step.ssn,
      Step.verify_info, Step.verify_submit, Step.phone, Step.encrypt, Step.personal_key,
      Step.verified}, by decide⟩,
    fun x => by cases x <;> decide⟩

/-- One entry of the `STEPS` table: a step key and its display title. -/
structure StepInfo where
  key : Step
  title : String
deriving DecidableEq, Repr

instance : Inhabited StepInfo := ⟨⟨Step.welcome, ""⟩⟩

/-- The ordered `STEPS` list. -/
def STEPS : List StepInfo :=
  [⟨Step.welcome, "Welcome"⟩,
   ⟨Step.agreement, "Agreement"⟩,
   ⟨Step.capture_document, "Capture Document"⟩,
   ⟨Step.cap_doc_submit, "Submit Document"⟩,
   ⟨Step.ssn, "SSN"⟩,
   ⟨Step.verify_info, "Verify Info"⟩,
   ⟨Step.verify_submit, "Verify Submit"⟩,
   ⟨Step.phone, "Phone"⟩,
   ⟨Step.encrypt, "Encrypt"⟩,
   ⟨Step.personal_key, "Personal Key"⟩,
   ⟨Step.verified, "Verified"⟩]

/-- `enum FunnelMode`: `OVERALL` starts the funnel at the welcome screen,
`BLANKET` at the image submission screen. -/
inductive FunnelMode where
  | overall
  | blanket
deriving DecidableEq, Repr

/-- `funnelSteps`: all steps in overall mode, `STEPS.slice(3)` in blanket
mode. -/
def funnelSteps (funnelMode : FunnelMode) : List StepInfo :=
  match funnelMode with
  | FunnelMode.overall => STEPS
  | FunnelMode.blanket => STEPS.drop 3

/-- A (processed) row of the daily-dropoffs CSV: metadata plus one numeric
count per funnel step (`DailyDropoffsRow extends Record<Step, number>`).
Per-step counts are a total function; a column missing from the CSV is the
same as `0` there, matching the `row[key] || 0` reads in the source. -/
structure DailyDropoffsRow where
  issuer : String
  friendly_name : String
  iaa : String
  agency : String
  start : ℕ
  finish : ℕ
  steps : Step → ℕ

instance : DecidableEq DailyDropoffsRow := fun a b =>
  decidable_of_iff
    (a.issuer = b.issuer ∧ a.friendly_name = b.friendly_name ∧ a.iaa = b.iaa ∧
      a.agency = b.agency ∧ a.start = b.start ∧ a.finish = b.finish ∧ a.steps = b.steps)
    (by cases a; cases b; simp)

instance : Inhabited DailyDropoffsRow :=
  ⟨⟨"", "", "", "", 0, 0, fun _ => 0⟩⟩

/-- A raw CSV row as `csvParse(str, autoType)` delivers it: the three string
fields may be missing/empty (CSV parsing itself is an external collaborator). -/
structure RawDailyDropoffsRow where
  issuer : Option String
  friendly_name : Option String
  iaa : String
  agency : Option String
  start : ℕ
  finish : ℕ
  steps : Step → ℕ

/-- `process`: default the missing (falsy) `issuer`, `agency` and
`friendly_name` fields of every parsed row; all other fields pass through. -/
def process (rows : List RawDailyDropoffsRow) : List DailyDropoffsRow :=
  rows.map (fun r =>
    { issuer := jsOrStr r.issuer "(No Issuer)",
      friendly_name := jsOrStr r.friendly_name "(No App)",
      iaa := r.iaa,
      agency := jsOrStr r.agency "(No Agency)",
      start := r.start,
      finish := r.finish,
      steps := r.steps })

/-- One computed funnel cell (`StepCount`). -/
structure StepCount where
  step : Step
  count : ℕ
  percentOfFirst : JsNum
  percentOfPrevious : JsNum
deriving DecidableEq, Repr

instance : Inhabited StepCount :=
  ⟨⟨Step.welcome, 0, JsNum.val 0, JsNum.val 0⟩⟩

/-- `toStepCounts`: for each funnel step, the count, the ratio to the first
step's count and the ratio to the previous step's count, each guarded with
`|| 0` against `NaN` from a zero divisor. -/
def toStepCounts (row : DailyDropoffsRow) (funnelMode : FunnelMode) : List StepCount :=
  let steps := funnelSteps funnelMode
  let firstCount := row.steps (steps.getD 0 default).key
  mapIdxFrom (fun idx s =>
    let count := row.steps s.key
    let prevCount := if idx = 0 then firstCount
      else row.steps ((steps.getD (idx - 1) default).key)
    { step := s.key,
      count := count,
      percentOfFirst := jsOr0 (jsDiv count firstCount),
      percentOfPrevious := jsOr0 (jsDiv count prevCount) }) 0 steps

/-- The per-bin step totals of `aggregate`: `forEach` over the bin adding
`row[key] || 0` onto the accumulated count. -/
def stepTotals (bin : List DailyDropoffsRow) (k : Step) : ℕ :=
  bin.foldl (fun oldCount row => row.steps k + oldCount) 0

/-- The sort predicate of `aggregate`:
`ascending(issuerA, issuerB) || ascending(binA[0].friendly_name, binB[0].friendly_name)`. -/
def aggLt (a b : String × List DailyDropoffsRow) : Bool :=
  ltByKey2 (fun g => g.1) (fun g => g.2.headI.friendly_name) a b

/-- The body of `aggregate`'s `map`: merge one (issuer, bin) group into a
single row carrying the first row's metadata (`bin[0]`) and the per-step
sums. -/
def mergeBin (g : String × List DailyDropoffsRow) : DailyDropoffsRow :=
  let b0 := g.2.headI
  { issuer := b0.issuer,
    friendly_name := b0.friendly_name,
    iaa := b0.iaa,
    agency := b0.agency,
    start := b0.start,
    finish := b0.finish,
    steps := fun k => stepTotals g.2 k }

/-- `aggregate`: group rows by issuer, sort the groups, and merge each bin
into one row. -/
def aggregate (rows : List DailyDropoffsRow) : List DailyDropoffsRow :=
  (sortWith aggLt (groupBy (fun d => d.issuer) rows)).map mergeBin

/-- `loadData` of the daily-dropoffs report: one fetch per day of
`utcDays(start, finish, 1)` (the per-day parsed CSV bodies are supplied by
`resp`, standing for `fetch(path).then(r => r.text())` plus `csvParse`),
joined by `Promise.all`, then `aggregate` over the concatenation of the
processed per-day rows. -/
def loadData (start finish : ℕ)
    (resp : ℕ → Except String (List RawDailyDropoffsRow)) :
    Except String (List DailyDropoffsRow) :=
  (collectDays (utcDays start finish) resp).map
    (fun reports => aggregate (reports.flatMap (fun r => process r)))

end DailyDropoffs

namespace DropoffsV2

open DailyDropoffs

/-- The sort predicate of the funnel `tabulate`:
`ascending(agencyA, agencyB) || ascending(friendlyNameA, friendlyNameB)`. -/
def rowLt (a b : DailyDropoffsRow) : Bool :=
  ltByKey2 (fun r => r.agency) (fun r => r.friendly_name) a b

/-- The two body cells a funnel step contributes after the first step
(absolute count and percent-of-first), one cell for the first step. -/
def stepCells (idx : ℕ) (sc : StepCount) : List Cell :=
  if idx = 0 then [Cell.tdNat sc.count]
  else [Cell.tdNat sc.count, Cell.tdPct sc.percentOfFirst]

/-- The accumulated per-step-column totals over all body rows
(`totals[idx] += count` while mapping the rows). -/
def totalsOf (rows : List DailyDropoffsRow) (funnelMode : FunnelMode) : List ℕ :=
  mapIdxFrom (fun idx _ =>
    (rows.map (fun r => ((toStepCounts r funnelMode).getD idx default).count)).sum)
    0 (funnelSteps funnelMode)

/-- The footer cells a step-column total contributes (`idx > 0` pairs the
total with an empty filler cell under the percent column). -/
def totalCells (idx : ℕ) (t : ℕ) : List Cell :=
  if idx = 0 then [Cell.tdNat t] else [Cell.tdNat t, Cell.tdStr ""]

/-- The funnel `tabulate`: rows sorted by agency then friendly name; the
header has one `colSpan=2` cell per step after the first; each body row has
one count cell for the first step and count+percent cells for every later
step; the footer carries the per-column totals. -/
def tabulate (rows : List DailyDropoffsRow) (funnelMode : FunnelMode) : TableData :=
  let sorted := sortWith rowLt rows
  let header := [Cell.str "Agency", Cell.str "App"]
      ++ mapIdxFrom (fun idx s => Cell.thSpan (if idx = 0 then 1 else 2) s.title)
          0 (funnelSteps funnelMode)
  let body := sorted.map (fun row =>
    [Cell.str row.agency, Cell.csvSpan row.issuer row.friendly_name]
      ++ (mapIdxFrom stepCells 0 (toStepCounts row funnelMode)).flatten)
  let totals := totalsOf sorted funnelMode
  { header := header,
    body := body,
    footer := some ([Cell.str "Total", Cell.str ""]
      ++ (mapIdxFrom totalCells 0 totals).flatten) }

end DropoffsV2

namespace AccountDeletions

/-- One row of the registrations data used by the account-deletions report
(the fields `formatData` reads). -/
structure ProcessedResult where
  date : ℕ
  deletedUsers : ℕ
  fullyRegisteredUsers : ℕ
deriving DecidableEq, Repr

/-- `getStartOfWeek`: back up to the Sunday of the date's week.  (The source
uses local-time `getDay`/`setDate`; dates here are UTC day numbers, and day 0
= 1970-01-01 was a Thursday, so the weekday index is `(d + 4) % 7`.) -/
def getStartOfWeek (date : ℕ) : ℕ := date - ((date + 4) % 7)

/-- One formatted output point: a week plus the deletion ratio. -/
structure ProcessedFormattedData where
  date : ℕ
  value : JsNum
deriving DecidableEq, Repr

/-- `formatData`: group by week, sum `deletedUsers` and
`fullyRegisteredUsers`, and divide the sums — with **no** guard against a
zero divisor. -/
def formatData (data : List ProcessedResult) : List ProcessedFormattedData :=
  (groupBy (fun value => getStartOfWeek value.date) data).map (fun g =>
    let sums := g.2.foldl
      (fun result entry =>
        (result.1 + entry.deletedUsers, result.2 + entry.fullyRegisteredUsers))
      (0, 0)
    { date := g.1, value := jsDiv sums.1 sums.2 })

end AccountDeletions

/-! ## Claim C8 — the daily-auths end-to-end example -/
/-- The three raw rows of the spec's end-to-end example, processed
(2021-01-01 is day 18628, 2021-01-02 is day 18629; `friendly_name` as in the
repository's own test). -/
def c8Rows : List DailyAuths.ProcessedResult :=
  [{ count := 100, ial := 1, issuer := "issuer1", iaa := none,
     friendly_name := "app1", agency := "agency1", date := 18628 },
   { count := 1, ial := 2, issuer := "issuer1", iaa := none,
     friendly_name := "app1", agency := "agency1", date := 18628 },
   { count := 111, ial := 1, issuer := "issuer1", iaa := none,
     friendly_name := "app1", agency := "agency1", date := 18629 }]

/-- A concrete all-succeeding daily-auths response payload. -/
def c4Rep : DailyAuths.DailyAuthsReportData :=
  { results := [{ count := 7, ial := 1, issuer := "i", iaa := none,
                  friendly_name := "f", agency := "a" }],
    start := 0, finish := 0 }

/-- A response function whose day-1 fetch fails. -/
def c5RespA : ℕ → Except String DailyAuths.DailyAuthsReportData :=
  fun d => if d = 0 then Except.ok { results := [], start := 0, finish := 0 }
    else Except.error "fetch failed"

def c5RespB : ℕ → Except String (List DailyDropoffs.RawDailyDropoffsRow) :=
  fun d => if d = 0 then Except.ok [] else Except.error "parse failed"

/-! ## Claim C7 — defaulting of missing agency / issuer / friendly name -/
/-- A daily-auths report whose row has an empty (missing) issuer and friendly
name. -/
def c7Rep : DailyAuths.DailyAuthsReportData :=
  { results := [{ count := 1, ial := 1, issuer := "", iaa := none,
                  friendly_name := "", agency := "agency1" }],
    start := 0, finish := 0 }

/-- The daily-auths raw row of `c7Rep`. -/
def c7Res : DailyAuths.Result :=
  { count := 1, ial := 1, issuer := "", iaa := none,
    friendly_name := "", agency := "agency1" }

/-- A raw funnel row with all three optional fields missing. -/
def c7Raw : DailyDropoffs.RawDailyDropoffsRow :=
  { issuer := none, friendly_name := some "", iaa := "", agency := some "a1",
    start := 0, finish := 0, steps := fun _ => 0 }

/-! ## Claim C2 — zero-divisor behaviour of the ratio computations -/
/-- A funnel row with `welcome = 0` but `agreement = 5`. -/
def c2Row : DailyDropoffs.DailyDropoffsRow :=
  { issuer := "issuer1", friendly_name := "app1", iaa := "", agency := "agency1",
    start := 0, finish := 0,
    steps := fun k => if k = DailyDropoffs.Step.agreement then 5 else 0 }

/-- A registrations row with zero deletions and zero registrations. -/
def c2Reg : AccountDeletions.ProcessedResult :=
  { date := 3, deletedUsers := 0, fullyRegisteredUsers := 0 }

/-- A funnel row with every step count zero. -/
def c2ZRow : DailyDropoffs.DailyDropoffsRow :=
  { issuer := "issuer1", friendly_name := "app1", iaa := "", agency := "agency1",
    start := 0, finish := 0, steps := fun _ => 0 }

/-- The agreement-step cell of `c2ZRow`. -/
def c2Sc0 : DailyDropoffs.StepCount :=
  { step := DailyDropoffs.Step.agreement, count := 0,
    percentOfFirst := JsNum.val 0, percentOfPrevious := JsNum.val 0 }

/-- A funnel row with all step counts zero (used only to exhibit concrete
lengths). -/
def c3Row : DailyDropoffs.DailyDropoffsRow :=
  { issuer := "i3", friendly_name := "f3", iaa := "", agency := "a3",
    start := 0, finish := 0, steps := fun _ => 0 }

/-- A single processed daily-auths row for the C3 witness tables. -/
def c3AuthRows : List DailyAuths.ProcessedResult :=
  [{ count := 2, ial := 1, issuer := "i3", iaa := none,
     friendly_name := "f3", agency := "a3", date := 18628 }]

/-- Two daily-auths rows in the same (agency, issuer, IAL) group on the same
day. -/
def c1Rows : List DailyAuths.ProcessedResult :=
  [{ count := 100, ial := 1, issuer := "issuer1", iaa := none,
     friendly_name := "app1", agency := "agency1", date := 18628 },
   { count := 1, ial := 1, issuer := "issuer1", iaa := none,
     friendly_name := "app1", agency := "agency1", date := 18628 }]

/-- Distinct-day daily-auths rows for the C1 witness. -/
def c1WRows : List DailyAuths.ProcessedResult :=
  [{ count := 3, ial := 1, issuer := "issuer1", iaa := none,
     friendly_name := "app1", agency := "agency1", date := 18628 },
   { count := 4, ial := 1, issuer := "issuer1", iaa := none,
     friendly_name := "app1", agency := "agency1", date := 18629 }]

/-- Funnel rows sharing one issuer for the C1 witness. -/
def c1FRows : List DailyDropoffs.DailyDropoffsRow :=
  [{ issuer := "i1", friendly_name := "f1", iaa := "", agency := "a1",
     start := 0, finish := 0,
     steps := fun k => if k = DailyDropoffs.Step.welcome then 1 else 0 },
   { issuer := "i1", friendly_name := "f1", iaa := "", agency := "a1",
     start := 0, finish := 0,
     steps := fun k => if k = DailyDropoffs.Step.welcome then 2 else 0 }]

/-! ## Claim C6 — output sort order -/
/-- The display text of a leading table cell (agency column). -/
def headCellText : Cell → String
  | Cell.str s => s
  | Cell.link a => a
  | _ => ""

/-- The issuer carried as the `title` of a daily-auths App cell. -/
def spanTitleOf : Cell → String
  | Cell.span t _ => t
  | _ => ""

/-- The friendly name shown in a funnel App cell. -/
def csvFriendlyOf : Cell → String
  | Cell.csvSpan _ f => f
  | _ => ""

/-- The (agency, issuer) key displayed by a daily-auths body row. -/
def rowKeyA (row : List Cell) : String × String :=
  (headCellText (row.getD 0 (Cell.str "")), spanTitleOf (row.getD 1 (Cell.str "")))

/-- The (agency, friendly name) key displayed by a funnel body row. -/
def rowKeyF (row : List Cell) : String × String :=
  (headCellText (row.getD 0 (Cell.str "")), csvFriendlyOf (row.getD 1 (Cell.str "")))

/-- Ascending lexicographic order (code-unit comparison, ties allowed) on the
displayed keys. -/
def lexLe (x y : String × String) : Prop :=
  x.1.data < y.1.data ∨ (x.1.data = y.1.data ∧ (x.2.data < y.2.data ∨ x.2.data = y.2.data))

/-- Two funnel rows whose issuer order is opposite to their agency order. -/
def c6Rows : List DailyDropoffs.DailyDropoffsRow :=
  [{ issuer := "b", friendly_name := "f1", iaa := "", agency := "A",
     start := 0, finish := 0, steps := fun _ => 0 },
   { issuer := "a", friendly_name := "f2", iaa := "", agency := "Z",
     start := 0, finish := 0, steps := fun _ => 0 }]

/-- The key-level predicate matching "this issuer has agency `a`" among
`rows`. -/
def c9P (rows : List DailyDropoffs.DailyDropoffsRow) (a : String) : String → Bool :=
  fun k => decide (∃ r ∈ rows, r.issuer = k ∧ r.agency = a)

/-- Two rows sharing an issuer but with different agencies. -/
def c9Rows : List DailyDropoffs.DailyDropoffsRow :=
  [{ issuer := "i", friendly_name := "f", iaa := "", agency := "A",
     start := 0, finish := 0,
     steps := fun k => if k = DailyDropoffs.Step.welcome then 1 else 0 },
   { issuer := "i", friendly_name := "f", iaa := "", agency := "B",
     start := 0, finish := 0,
     steps := fun k => if k = DailyDropoffs.Step.welcome then 2 else 0 }]

/-- Consistent witness rows: one agency per issuer. -/
def c9WRows : List DailyDropoffs.DailyDropoffsRow :=
  [{ issuer := "i1", friendly_name := "f", iaa := "", agency := "A",
     start := 0, finish := 0,
     steps := fun k => if k = DailyDropoffs.Step.welcome then 1 else 0 },
   { issuer := "i1", friendly_name := "f", iaa := "", agency := "A",
     start := 0, finish := 0,
     steps := fun k => if k = DailyDropoffs.Step.welcome then 2 else 0 },
   { issuer := "i2", friendly_name := "g", iaa := "", agency := "B",
     start := 0, finish := 0,
     steps := fun _ => 0 }]

/-! ### Theorems -/

theorem strLtb_iff {a b : String} : strLtb a b = true ↔ a.data < b.data := by
  simp [strLtb]

theorem ascendingStr_neg_iff {a b : String} :
    ascendingStr a b < 0 ↔ a.data < b.data := by
  unfold ascendingStr
  by_cases h : strLtb a b = true
  · simp [h, strLtb_iff.mp h]
  · have h' : ¬ a.data < b.data := fun hc => h (strLtb_iff.mpr hc)
    simp only [Bool.not_eq_true] at h
    rw [h]
    by_cases h2 : strLtb b a = true <;> simp [h2, h']

theorem insertSorted_perm (lt : α → α → Bool) (a : α) :
    ∀ l : List α, (insertSorted lt a l).Perm (a :: l) := by
  intro l
  induction l with
  | nil => simp [insertSorted]
  | cons b l ih =>
      unfold insertSorted
      by_cases h : lt a b = true
      · simp [h]
      · simp only [h]
        simp only [Bool.false_eq_true, if_false]
        exact (ih.cons b).trans (List.Perm.swap a b l)

theorem sortWith_aux_perm (lt : α → α → Bool) :
    ∀ (l acc : List α), (l.foldl (fun acc a => insertSorted lt a acc) acc).Perm (acc ++ l) := by
  intro l
  induction l with
  | nil => intro acc; simp
  | cons a l ih =>
      intro acc
      have h1 := ih (insertSorted lt a acc)
      have h2 : (insertSorted lt a acc ++ l).Perm (acc ++ a :: l) := by
        have := (insertSorted_perm lt a acc).append_right l
        exact this.trans (List.perm_middle.symm)
      simpa using h1.trans h2

theorem sortWith_perm (lt : α → α → Bool) (l : List α) :
    (sortWith lt l).Perm l := by
  simpa [sortWith] using sortWith_aux_perm lt l []

theorem mem_sortWith {lt : α → α → Bool} {l : List α} {x : α} :
    x ∈ sortWith lt l ↔ x ∈ l :=
  (sortWith_perm lt l).mem_iff

section SortLemmas

variable {α : Type _} {lt : α → α → Bool}

theorem insertSorted_sorted
    (hAsymm : ∀ a b, lt a b = true → lt b a = false)
    (hTransNot : ∀ a b c, lt a b = true → lt c b = false → lt a c = true)
    {l : List α} (hl : SortedB lt l) (a : α) :
    SortedB lt (insertSorted lt a l) := by
  induction l with
  | nil => simp [insertSorted, SortedB]
  | cons b l ih =>
      rcases (List.pairwise_cons.mp hl) with ⟨hb, hl'⟩
      unfold insertSorted
      by_cases h : lt a b = true
      · simp only [h, if_true]
        refine List.pairwise_cons.mpr ⟨?_, hl⟩
        intro c hc
        rcases List.mem_cons.mp hc with rfl | hc
        · exact hAsymm _ _ h
        · exact hAsymm _ _ (hTransNot _ _ _ h (hb c hc))
      · simp only [h, if_false]
        refine List.pairwise_cons.mpr ⟨?_, ih hl'⟩
        intro c hc
        rcases List.mem_cons.mp ((insertSorted_perm lt a l).mem_iff.mp hc) with rfl | hc
        · simpa using h
        · exact hb c hc

theorem sortWith_sorted
    (hAsymm : ∀ a b, lt a b = true → lt b a = false)
    (hTransNot : ∀ a b c, lt a b = true → lt c b = false → lt a c = true)
    (l : List α) : SortedB lt (sortWith lt l) := by
  suffices h : ∀ (l acc : List α), SortedB lt acc →
      SortedB lt (l.foldl (fun acc a => insertSorted lt a acc) acc) by
    exact h l [] (by simp [SortedB])
  intro l
  induction l with
  | nil => intro acc h; simpa using h
  | cons a l ih =>
      intro acc hacc
      exact ih _ (insertSorted_sorted hAsymm hTransNot hacc a)

theorem insertSorted_eq_append {a : α} {l : List α}
    (h : ∀ b ∈ l, lt a b = false) : insertSorted lt a l = l ++ [a] := by
  induction l with
  | nil => simp [insertSorted]
  | cons b l ih =>
      unfold insertSorted
      rw [h b (by simp)]
      simp only [Bool.false_eq_true, if_false, List.cons_append, List.cons.injEq, true_and]
      exact ih (fun c hc => h c (by simp [hc]))

/-- Sorting a list that is already sorted (no element strictly below an
earlier one) returns it unchanged. -/
theorem sortWith_eq_self {l : List α}
    (h : l.Pairwise (fun a b => lt b a = false)) : sortWith lt l = l := by
  suffices haux : ∀ (l acc : List α),
      (∀ a ∈ l, ∀ b ∈ acc, lt a b = false) →
      l.Pairwise (fun a b => lt b a = false) →
      (l.foldl (fun acc a => insertSorted lt a acc) acc) = acc ++ l by
    simpa using haux l [] (by simp) h
  intro l
  induction l with
  | nil => intro acc _ _; simp
  | cons a l ih =>
      intro acc hcross hpw
      rcases List.pairwise_cons.mp hpw with ⟨ha, hl⟩
      have h1 : insertSorted lt a acc = acc ++ [a] :=
        insertSorted_eq_append (fun b hb => hcross a (by simp) b hb)
      simp only [List.foldl_cons, h1]
      rw [ih (acc ++ [a]) ?_ hl]
      · simp
      · intro x hx b hb
        rcases List.mem_append.mp hb with hb | hb
        · exact hcross x (by simp [hx]) b hb
        · have : b = a := by simpa using hb
          subst this
          exact ha x hx

theorem filter_insertSorted
    (hTransNot : ∀ a b c, lt a b = true → lt c b = false → lt a c = true)
    (p : α → Bool) {a : α} {l : List α} (hl : SortedB lt l) :
    (insertSorted lt a l).filter p =
      if p a then insertSorted lt a (l.filter p) else l.filter p := by
  induction l with
  | nil => by_cases h : p a = true <;> simp [insertSorted, List.filter, h]
  | cons b l ih =>
      rcases List.pairwise_cons.mp hl with ⟨hb, hl'⟩
      cases hab : lt a b with
      | true =>
          have hstep : insertSorted lt a (b :: l) = a :: b :: l := by
            simp [insertSorted, hab]
          rw [hstep]
          by_cases hpa : p a = true
          · rw [if_pos hpa, List.filter_cons_of_pos hpa]
            -- `a` is below `b`, hence below every element of `b :: l`,
            -- hence below every element of the filtered list.
            have hfront : ∀ c ∈ (b :: l).filter p, lt a c = true := by
              intro c hc
              rcases List.mem_cons.mp (List.mem_of_mem_filter hc) with rfl | hc'
              · exact hab
              · exact hTransNot _ _ _ hab (hb c hc')
            cases hfil : (b :: l).filter p with
            | nil => simp [insertSorted]
            | cons c cs =>
                have hc : lt a c = true := by
                  refine hfront c ?_
                  rw [hfil]; simp
                simp [insertSorted, hc]
          · rw [if_neg hpa, List.filter_cons_of_neg (by simpa using hpa)]
      | false =>
          have hstep : insertSorted lt a (b :: l) = b :: insertSorted lt a l := by
            simp [insertSorted, hab]
          rw [hstep]
          by_cases hpb : p b = true
          · rw [List.filter_cons_of_pos hpb, List.filter_cons_of_pos hpb, ih hl']
            by_cases hpa : p a = true
            · rw [if_pos hpa, if_pos hpa]
              simp [insertSorted, hab]
            · rw [if_neg hpa, if_neg hpa]
          · rw [List.filter_cons_of_neg (by simpa using hpb),
                List.filter_cons_of_neg (by simpa using hpb), ih hl']

/-- Filtering commutes with the stable sort. -/
theorem filter_sortWith
    (hAsymm : ∀ a b, lt a b = true → lt b a = false)
    (hTransNot : ∀ a b c, lt a b = true → lt c b = false → lt a c = true)
    (p : α → Bool) (l : List α) :
    (sortWith lt l).filter p = sortWith lt (l.filter p) := by
  suffices haux : ∀ (l acc : List α), SortedB lt acc →
      (l.foldl (fun acc a => insertSorted lt a acc) acc).filter p =
        (l.filter p).foldl (fun acc a => insertSorted lt a acc) (acc.filter p) by
    simpa using haux l [] (by simp [SortedB])
  intro l
  induction l with
  | nil => intro acc _; simp
  | cons a l ih =>
      intro acc hacc
      simp only [List.foldl_cons]
      rw [ih (insertSorted lt a acc) (insertSorted_sorted hAsymm hTransNot hacc a)]
      rw [filter_insertSorted hTransNot p hacc]
      by_cases hpa : p a = true
      · rw [List.filter_cons_of_pos hpa]
        simp [hpa]
      · rw [List.filter_cons_of_neg (by simpa using hpa)]
        simp [hpa]

end SortLemmas

/-- Chains across a `flatMap`: if the blocks are pairwise related elementwise
and each block is a chain, the concatenation is a chain. -/
theorem chain_flatMap {R : α → α → Prop} {G : List γ} {f : γ → List α}
    (hPW : G.Pairwise (fun p q => ∀ x ∈ f p, ∀ y ∈ f q, R x y))
    (hIn : ∀ p ∈ G, List.Chain' R (f p)) :
    List.Chain' R (G.flatMap f) := by
  induction G with
  | nil => simp
  | cons p G ih =>
      rcases List.pairwise_cons.mp hPW with ⟨hp, hPW'⟩
      have hrest : List.Chain' R (G.flatMap f) :=
        ih hPW' (fun q hq => hIn q (by simp [hq]))
      simp only [List.flatMap_cons]
      refine List.Chain'.append (hIn p (by simp)) hrest ?_
      intro x hx y hy
      have hx' : x ∈ f p := List.mem_of_mem_getLast? hx
      have hy' : y ∈ G.flatMap f := List.mem_of_mem_head? hy
      rcases List.mem_flatMap.mp hy' with ⟨q, hq, hyq⟩
      exact hp q hq x hx' y hyq

section GroupLemmas

variable {κ : Type _} [DecidableEq κ] {key : α → κ}

theorem mem_keyInsert {ks : List κ} {k k' : κ} :
    k' ∈ keyInsert ks k ↔ k' ∈ ks ∨ k' = k := by
  unfold keyInsert
  by_cases h : k ∈ ks
  · simp only [h, if_true]
    constructor
    · exact Or.inl
    · rintro (h' | rfl) <;> [exact h'; exact h]
  · simp [h]

theorem keyInsert_nodup {ks : List κ} {k : κ} (h : ks.Nodup) :
    (keyInsert ks k).Nodup := by
  unfold keyInsert
  by_cases hk : k ∈ ks
  · simpa [hk] using h
  · simpa [hk, List.nodup_append] using h

theorem keyOrder_nodup (key : α → κ) (l : List α) : (keyOrder key l).Nodup := by
  suffices haux : ∀ (l : List α) (ks : List κ), ks.Nodup →
      (l.foldl (fun ks r => keyInsert ks (key r)) ks).Nodup by
    exact haux l [] List.nodup_nil
  intro l
  induction l with
  | nil => intro ks h; simpa using h
  | cons a l ih => intro ks h; exact ih _ (keyInsert_nodup h)

theorem mem_keyOrder {l : List α} {k : κ} :
    k ∈ keyOrder key l ↔ ∃ r ∈ l, key r = k := by
  suffices haux : ∀ (l : List α) (ks : List κ),
      (k ∈ l.foldl (fun ks r => keyInsert ks (key r)) ks ↔ k ∈ ks ∨ ∃ r ∈ l, key r = k) by
    simpa using haux l []
  intro l
  induction l with
  | nil => intro ks; simp
  | cons a l ih =>
      intro ks
      simp only [List.foldl_cons]
      rw [ih (keyInsert ks (key a)), mem_keyInsert]
      constructor
      · rintro ((h | h) | ⟨r, hr, hk⟩)
        · exact Or.inl h
        · exact Or.inr ⟨a, by simp, h.symm⟩
        · exact Or.inr ⟨r, by simp [hr], hk⟩
      · rintro (h | ⟨r, hr, hk⟩)
        · exact Or.inl (Or.inl h)
        · rcases List.mem_cons.mp hr with rfl | hr
          · exact Or.inl (Or.inr hk.symm)
          · exact Or.inr ⟨r, hr, hk⟩

theorem groupBy_mem {l : List α} {g : κ × List α} (h : g ∈ groupBy key l) :
    g.1 ∈ keyOrder key l ∧ g.2 = l.filter (fun r => key r = g.1) := by
  rcases List.mem_map.mp h with ⟨k, hk, rfl⟩
  exact ⟨hk, rfl⟩

theorem groupBy_bin_ne_nil {l : List α} {g : κ × List α} (h : g ∈ groupBy key l) :
    g.2 ≠ [] := by
  rcases groupBy_mem h with ⟨hk, hbin⟩
  rcases mem_keyOrder.mp hk with ⟨r, hr, hkey⟩
  intro hnil
  have : r ∈ g.2 := by
    rw [hbin]
    exact List.mem_filter.mpr ⟨hr, by simp [hkey]⟩
  simp [hnil] at this

theorem groupBy_bin_key {l : List α} {g : κ × List α} (h : g ∈ groupBy key l) :
    ∀ r ∈ g.2, key r = g.1 := by
  rcases groupBy_mem h with ⟨-, hbin⟩
  intro r hr
  rw [hbin] at hr
  simpa using (List.mem_filter.mp hr).2

theorem groupBy_head_key {l : List α} {g : κ × List α} (h : g ∈ groupBy key l) :
    ∀ r ∈ g.2.head?, key r = g.1 := by
  intro r hr
  exact groupBy_bin_key h r (List.mem_of_mem_head? hr)

theorem keyOrder_of_nodup_keys :
    ∀ {l : List α}, (l.map key).Nodup → keyOrder key l = l.map key := by
  suffices haux : ∀ (l : List α) (ks : List κ),
      (∀ x ∈ l, key x ∉ ks) → ((l.map key).Nodup) →
      l.foldl (fun ks r => keyInsert ks (key r)) ks = ks ++ l.map key by
    intro l h
    simpa [keyOrder] using haux l [] (by simp) h
  intro l
  induction l with
  | nil => intro ks _ _; simp
  | cons a l ih =>
      intro ks hks hnd
      obtain ⟨hna, hnd'⟩ : (∀ x ∈ l, ¬ key x = key a) ∧ (l.map key).Nodup := by
        simpa using hnd
      simp only [List.foldl_cons, List.map_cons]
      have h1 : keyInsert ks (key a) = ks ++ [key a] := by
        unfold keyInsert
        simp [hks a (by simp)]
      rw [h1, ih (ks ++ [key a]) ?_ hnd']
      · simp
      · intro x hx
        simp only [List.mem_append, List.mem_singleton]
        rintro (hmem | heq)
        · exact hks x (by simp [hx]) hmem
        · exact hna x hx heq

theorem filter_key_eq_of_nodup_keys :
    ∀ {l : List α}, (l.map key).Nodup → ∀ r ∈ l,
      l.filter (fun x => key x = key r) = [r] := by
  intro l
  induction l with
  | nil => intro _ r hr; simp at hr
  | cons a l ih =>
      intro h r hr
      obtain ⟨hna, hnd⟩ : (∀ x ∈ l, ¬ key x = key a) ∧ (l.map key).Nodup := by
        simpa using h
      rcases List.mem_cons.mp hr with rfl | hr'
      · rw [List.filter_cons_of_pos (by simp)]
        have hnil : l.filter (fun x => key x = key r) = [] := by
          rw [List.filter_eq_nil_iff]
          intro x hx
          simp only [decide_eq_true_eq]
          exact hna x hx
        rw [hnil]
      · have hne : key a ≠ key r := fun heq => hna r hr' heq.symm
        rw [List.filter_cons_of_neg (by simpa using hne)]
        exact ih hnd r hr'

/-- When all keys are distinct, grouping yields one singleton bin per element,
in order. -/
theorem groupBy_of_nodup_keys {l : List α} (h : (l.map key).Nodup) :
    groupBy key l = l.map (fun r => (key r, [r])) := by
  unfold groupBy
  rw [keyOrder_of_nodup_keys h, List.map_map]
  apply List.map_congr_left
  intro r hr
  simp [filter_key_eq_of_nodup_keys h r hr]

end GroupLemmas

theorem mem_utcDays {start finish d : ℕ} :
    d ∈ utcDays start finish ↔ start ≤ d ∧ d < finish := by
  unfold utcDays
  constructor
  · rintro h
    rcases List.mem_map.mp h with ⟨i, hi, rfl⟩
    have hi' := List.mem_range.mp hi
    omega
  · rintro ⟨h1, h2⟩
    exact List.mem_map.mpr ⟨d - start, List.mem_range.mpr (by omega), by omega⟩

theorem length_utcDays (start finish : ℕ) :
    (utcDays start finish).length = finish - start := by
  simp [utcDays]

theorem collectDays_ok {days : List ℕ} {resp : ℕ → Except ε ρ} {g : ℕ → ρ}
    (h : ∀ d ∈ days, resp d = Except.ok (g d)) :
    collectDays days resp = Except.ok (days.map g) := by
  induction days with
  | nil => simp [collectDays]
  | cons d ds ih =>
      rw [List.map_cons]
      unfold collectDays
      rw [h d (by simp), ih (fun x hx => h x (by simp [hx]))]

theorem collectDays_error {ds₁ : List ℕ} {d : ℕ} {ds₂ : List ℕ}
    {resp : ℕ → Except ε ρ} {e : ε}
    (hok : ∀ x ∈ ds₁, (resp x).isOk) (herr : resp d = Except.error e) :
    collectDays (ds₁ ++ d :: ds₂) resp = Except.error e := by
  induction ds₁ with
  | nil => simp [collectDays, herr]
  | cons x ds₁ ih =>
      have hx := hok x (by simp)
      rcases hr : resp x with e' | v
      · rw [hr] at hx; simp [Except.isOk, Except.toBool] at hx
      · simp only [List.cons_append]
        unfold collectDays
        rw [hr, ih (fun y hy => hok y (by simp [hy]))]

theorem ascendingStr_eq_zero_iff {a b : String} :
    ascendingStr a b = 0 ↔ a.data = b.data := by
  unfold ascendingStr
  by_cases h1 : strLtb a b = true
  · simp only [h1, if_true]
    constructor
    · intro h; exact absurd h (by decide)
    · intro h
      exact absurd (h ▸ strLtb_iff.mp h1) (lt_irrefl _)
  · have h1' : ¬ a.data < b.data := fun hc => h1 (strLtb_iff.mpr hc)
    simp only [Bool.not_eq_true] at h1
    rw [h1]
    by_cases h2 : strLtb b a = true
    · simp only [h2, if_true]
      constructor
      · intro h; exact absurd h (by decide)
      · intro h
        exact absurd (h ▸ strLtb_iff.mp h2) (lt_irrefl _)
    · have h2' : ¬ b.data < a.data := fun hc => h2 (strLtb_iff.mpr hc)
      simp only [Bool.not_eq_true] at h2
      rw [h2]
      simp only [if_false, true_iff, Bool.false_eq_true]
      exact le_antisymm (not_lt.mp h2') (not_lt.mp h1')

theorem ltByKey_iff {k : α → String} {a b : α} :
    ltByKey k a b = true ↔ (k a).data < (k b).data := by
  simp [ltByKey, ascendingStr_neg_iff]

theorem ltByKey_asymm (k : α → String) :
    ∀ a b, ltByKey k a b = true → ltByKey k b a = false := by
  intro a b h
  rw [ltByKey_iff] at h
  rw [Bool.eq_false_iff]
  intro hc
  exact absurd (ltByKey_iff.mp hc) (lt_asymm h)

theorem ltByKey_transNot (k : α → String) :
    ∀ a b c, ltByKey k a b = true → ltByKey k c b = false → ltByKey k a c = true := by
  intro a b c h1 h2
  rw [ltByKey_iff] at h1 ⊢
  have h2' : ¬ (k c).data < (k b).data := by
    intro hc
    rw [ltByKey_iff.mpr hc] at h2
    exact absurd h2 (by decide)
  exact lt_of_lt_of_le h1 (not_lt.mp h2')

theorem ltByKey2_iff {k1 k2 : α → String} {a b : α} :
    ltByKey2 k1 k2 a b = true ↔
      ((k1 a).data < (k1 b).data ∨
        ((k1 a).data = (k1 b).data ∧ (k2 a).data < (k2 b).data)) := by
  unfold ltByKey2 jsOrInt
  by_cases h : ascendingStr (k1 a) (k1 b) = 0
  · have hdata := ascendingStr_eq_zero_iff.mp h
    simp [h, ascendingStr_neg_iff, hdata, lt_irrefl]
  · have hdata : ¬ (k1 a).data = (k1 b).data := fun hc => h (ascendingStr_eq_zero_iff.mpr hc)
    simp [h, ascendingStr_neg_iff, hdata]

theorem ltByKey2_asymm (k1 k2 : α → String) :
    ∀ a b, ltByKey2 k1 k2 a b = true → ltByKey2 k1 k2 b a = false := by
  intro a b h
  rw [ltByKey2_iff] at h
  rw [Bool.eq_false_iff]
  intro hc
  rw [ltByKey2_iff] at hc
  rcases h with h | ⟨he, h⟩ <;> rcases hc with hc | ⟨hce, hc⟩
  · exact lt_asymm h hc
  · exact absurd hce.symm (ne_of_lt h)
  · exact absurd he.symm (ne_of_lt hc)
  · exact lt_asymm h hc

theorem ltByKey2_transNot (k1 k2 : α → String) :
    ∀ a b c, ltByKey2 k1 k2 a b = true → ltByKey2 k1 k2 c b = false →
      ltByKey2 k1 k2 a c = true := by
  intro a b c h1 h2
  rw [ltByKey2_iff] at h1 ⊢
  have h2' : ¬ ((k1 c).data < (k1 b).data ∨
      ((k1 c).data = (k1 b).data ∧ (k2 c).data < (k2 b).data)) := by
    intro hc
    rw [(@ltByKey2_iff _ k1 k2 c b).mpr hc] at h2
    exact absurd h2 (by decide)
  push_neg at h2'
  obtain ⟨hc1, hc2⟩ := h2'
  rcases h1 with h1 | ⟨he, h1⟩
  · exact Or.inl (lt_of_lt_of_le h1 hc1)
  · rcases lt_or_eq_of_le hc1 with hlt | heq
    · exact Or.inl (he ▸ hlt)
    · have hb2 : (k2 b).data ≤ (k2 c).data := hc2 heq.symm
      exact Or.inr ⟨he.trans heq, lt_of_lt_of_le h1 hb2⟩

theorem ltNat_asymm : ∀ a b, ltNat a b = true → ltNat b a = false := by
  intro a b h
  simp only [ltNat, decide_eq_true_eq] at h
  simp [ltNat, Nat.not_lt.mpr (le_of_lt h)]

theorem ltNat_transNot : ∀ a b c, ltNat a b = true → ltNat c b = false → ltNat a c = true := by
  intro a b c h1 h2
  simp only [ltNat, decide_eq_true_eq, decide_eq_false_iff_not] at h1 h2 ⊢
  omega

theorem length_mapIdxFrom (f : ℕ → α → β) :
    ∀ (l : List α) (n : ℕ), (mapIdxFrom f n l).length = l.length := by
  intro l
  induction l with
  | nil => intro n; rfl
  | cons a l ih => intro n; simp [mapIdxFrom, ih]

theorem getElem?_mapIdxFrom (f : ℕ → α → β) :
    ∀ (l : List α) (n i : ℕ), (mapIdxFrom f n l)[i]? = (l[i]?).map (f (n + i)) := by
  intro l
  induction l with
  | nil => intro n i; simp [mapIdxFrom]
  | cons a l ih =>
      intro n i
      cases i with
      | zero => simp [mapIdxFrom]
      | succ i =>
          simp only [mapIdxFrom, List.getElem?_cons_succ]
          rw [ih (n + 1) i]
          have h2 : n + 1 + i = n + (i + 1) := by omega
          rw [h2]

theorem mem_mapIdxFrom {f : ℕ → α → β} {x : β} :
    ∀ {l : List α} {n : ℕ}, x ∈ mapIdxFrom f n l →
      ∃ i a, l[i]? = some a ∧ x = f (n + i) a := by
  intro l
  induction l with
  | nil => intro n h; simp [mapIdxFrom] at h
  | cons b l ih =>
      intro n h
      rcases List.mem_cons.mp h with rfl | h'
      · exact ⟨0, b, by simp⟩
      · rcases ih h' with ⟨i, a, ha, rfl⟩
        refine ⟨i + 1, a, by simpa using ha, ?_⟩
        have h2 : n + (i + 1) = n + 1 + i := by omega
        rw [h2]

/-- C8: evaluating `tabulate` on the spec's example rows.  The code produces a
trailing "Total" header column and per-row totals (211 and 1), whereas the
claim (and the repository's own test `daily-auths-report.test.js`) expects the
header to end after "2021-01-02" and the rows after the day counts. -/
theorem c8_tabulate_appends_total_column :
    DailyAuths.tabulate (some c8Rows) none none =
      { header := [Cell.str "Agency", Cell.str "App", Cell.str "IAL",
          Cell.str "2021-01-01", Cell.str "2021-01-02", Cell.str "Total"],
        body := [[Cell.str "agency1", Cell.span "issuer1" (some "app1"), Cell.str "1",
            Cell.nat 100, Cell.nat 111, Cell.nat 211],
          [Cell.str "agency1", Cell.span "issuer1" (some "app1"), Cell.str "2",
            Cell.nat 1, Cell.nat 0, Cell.nat 1]],
        footer := none } := by
  decide

/-! ## Claim C4 — the loader's day range -/
/-- C4 counterexample: with `start = 0` and `finish = 1`, one fetch is issued
for day 0 only; day 1 — which the claim's inclusive range `[start, finish]`
contains — gets no fetch. -/
theorem c4_counterexample :
    DailyAuths.fetchedDays 0 1 = [0] ∧ 1 ∉ DailyAuths.fetchedDays 0 1 := by
  decide

/-- C4 amended: the loader issues exactly one fetch per UTC day in the
half-open range `[start, finish)` (the finish day is excluded); on success the
daily-auths loader concatenates the processed per-day reports, each row dated
with its report's `start` field; the daily-dropoffs loader additionally
aggregates the concatenation by issuer. -/
theorem c4_amended :
    (∀ start finish d, d ∈ DailyAuths.fetchedDays start finish ↔ start ≤ d ∧ d < finish)
    ∧ (∀ start finish, (DailyAuths.fetchedDays start finish).length = finish - start)
    ∧ (∀ (start finish : ℕ) (resp : ℕ → Except String DailyAuths.DailyAuthsReportData)
        (rep : ℕ → DailyAuths.DailyAuthsReportData),
        (∀ d ∈ DailyAuths.fetchedDays start finish, resp d = Except.ok (rep d)) →
        DailyAuths.loadData start finish resp =
          Except.ok ((DailyAuths.fetchedDays start finish).flatMap
            (fun d => DailyAuths.process (rep d))))
    ∧ (∀ (rep : DailyAuths.DailyAuthsReportData) r,
        r ∈ DailyAuths.process rep → r.date = rep.start)
    ∧ (∀ (start finish : ℕ) (resp : ℕ → Except String (List DailyDropoffs.RawDailyDropoffsRow))
        (rep : ℕ → List DailyDropoffs.RawDailyDropoffsRow),
        (∀ d ∈ utcDays start finish, resp d = Except.ok (rep d)) →
        DailyDropoffs.loadData start finish resp =
          Except.ok (DailyDropoffs.aggregate ((utcDays start finish).flatMap
            (fun d => DailyDropoffs.process (rep d))))) := by
  refine ⟨fun start finish d => mem_utcDays,
    fun start finish => length_utcDays start finish, ?_, ?_, ?_⟩
  · intro start finish resp rep h
    unfold DailyAuths.loadData
    rw [collectDays_ok h]
    simp only [Except.map, List.flatMap_map]
  · intro rep r hr
    rcases List.mem_map.mp hr with ⟨x, hx, rfl⟩
    rfl
  · intro start finish resp rep h
    unfold DailyDropoffs.loadData
    rw [collectDays_ok h]
    simp only [Except.map, List.flatMap_map]

theorem c4_witness :
    ((1 ∈ DailyAuths.fetchedDays 0 2) ↔ 0 ≤ 1 ∧ 1 < 2)
    ∧ (DailyAuths.fetchedDays 0 2).length = 2 - 0
    ∧ DailyAuths.loadData 0 2 (fun _ => Except.ok c4Rep) =
        Except.ok ((DailyAuths.fetchedDays 0 2).flatMap
          (fun _ => DailyAuths.process c4Rep))
    ∧ DailyDropoffs.loadData 0 2 (fun _ => Except.ok []) =
        Except.ok (DailyDropoffs.aggregate ((utcDays 0 2).flatMap
          (fun _ => DailyDropoffs.process []))) :=
  ⟨c4_amended.1 0 2 1, c4_amended.2.1 0 2,
    c4_amended.2.2.1 0 2 _ (fun _ => c4Rep) (fun _ _ => rfl),
    c4_amended.2.2.2.2 0 2 _ (fun _ => []) (fun _ _ => rfl)⟩

/-! ## Claim C5 — all-or-nothing failure of the day batch -/
/-- C5: if any day's fetch/parse fails, the whole batch rejects with the first
failing day's error and no row data is produced (the result is `error`, which
carries no rows), for both loaders.  "First" is the earliest failing day of
the window, matching `Promise.all` over the in-order day list. -/
theorem c5_reject_on_any_failure :
    (∀ (start finish : ℕ) (resp : ℕ → Except String DailyAuths.DailyAuthsReportData)
        (ds₁ : List ℕ) (d : ℕ) (ds₂ : List ℕ) (e : String),
        DailyAuths.fetchedDays start finish = ds₁ ++ d :: ds₂ →
        (∀ x ∈ ds₁, (resp x).isOk) → resp d = Except.error e →
        DailyAuths.loadData start finish resp = Except.error e)
    ∧ (∀ (start finish : ℕ) (resp : ℕ → Except String (List DailyDropoffs.RawDailyDropoffsRow))
        (ds₁ : List ℕ) (d : ℕ) (ds₂ : List ℕ) (e : String),
        utcDays start finish = ds₁ ++ d :: ds₂ →
        (∀ x ∈ ds₁, (resp x).isOk) → resp d = Except.error e →
        DailyDropoffs.loadData start finish resp = Except.error e) := by
  constructor
  · intro start finish resp ds₁ d ds₂ e hsplit hok herr
    unfold DailyAuths.loadData DailyAuths.fetchedDays
    unfold DailyAuths.fetchedDays at hsplit
    rw [hsplit, collectDays_error hok herr]
    rfl
  · intro start finish resp ds₁ d ds₂ e hsplit hok herr
    unfold DailyDropoffs.loadData
    rw [hsplit, collectDays_error hok herr]
    rfl

theorem c5_witness :
    DailyAuths.loadData 0 2 c5RespA = Except.error "fetch failed"
    ∧ DailyDropoffs.loadData 0 2 c5RespB = Except.error "parse failed" :=
  ⟨c5_reject_on_any_failure.1 0 2 c5RespA [0] 1 [] "fetch failed" rfl
      (by intro x hx; simp at hx; subst hx; rfl) rfl,
    c5_reject_on_any_failure.2 0 2 c5RespB [0] 1 [] "parse failed" rfl
      (by intro x hx; simp at hx; subst hx; rfl) rfl⟩

/-- C7 counterexample: the daily-auths normalizer leaves an empty issuer
unchanged instead of replacing it with "(No Issuer)" (it only defaults the
agency field). -/
theorem c7_counterexample :
    (DailyAuths.process c7Rep).map (fun r => r.issuer) = [""]
    ∧ ("" : String) ≠ "(No Issuer)" := by
  decide

/-- C7 amended: the daily-dropoffs normalizer replaces each of the three
missing (absent or empty) fields with its default display string and keeps
present fields; the daily-auths normalizer does so for the agency field only,
passing issuer and friendly name through unchanged. -/
theorem c7_amended :
    (∀ r : DailyDropoffs.RawDailyDropoffsRow,
      ((r.issuer = none ∨ r.issuer = some "") →
        (DailyDropoffs.process [r]).map (fun p => p.issuer) = ["(No Issuer)"])
      ∧ (∀ s, r.issuer = some s → s ≠ "" →
        (DailyDropoffs.process [r]).map (fun p => p.issuer) = [s])
      ∧ ((r.agency = none ∨ r.agency = some "") →
        (DailyDropoffs.process [r]).map (fun p => p.agency) = ["(No Agency)"])
      ∧ (∀ s, r.agency = some s → s ≠ "" →
        (DailyDropoffs.process [r]).map (fun p => p.agency) = [s])
      ∧ ((r.friendly_name = none ∨ r.friendly_name = some "") →
        (DailyDropoffs.process [r]).map (fun p => p.friendly_name) = ["(No App)"])
      ∧ (∀ s, r.friendly_name = some s → s ≠ "" →
        (DailyDropoffs.process [r]).map (fun p => p.friendly_name) = [s]))
    ∧ (∀ (res : DailyAuths.Result) (s f : ℕ),
      (res.agency = "" →
        (DailyAuths.process { results := [res], start := s, finish := f }).map
          (fun p => p.agency) = ["(No Agency)"])
      ∧ (res.agency ≠ "" →
        (DailyAuths.process { results := [res], start := s, finish := f }).map
          (fun p => p.agency) = [res.agency])
      ∧ (DailyAuths.process { results := [res], start := s, finish := f }).map
          (fun p => p.issuer) = [res.issuer]
      ∧ (DailyAuths.process { results := [res], start := s, finish := f }).map
          (fun p => p.friendly_name) = [res.friendly_name]) := by
  constructor
  · intro r
    refine ⟨?_, ?_, ?_, ?_, ?_, ?_⟩
    · rintro (h | h) <;> simp [DailyDropoffs.process, jsOrStr, h]
    · intro s hs hne; simp [DailyDropoffs.process, jsOrStr, hs, hne]
    · rintro (h | h) <;> simp [DailyDropoffs.process, jsOrStr, h]
    · intro s hs hne; simp [DailyDropoffs.process, jsOrStr, hs, hne]
    · rintro (h | h) <;> simp [DailyDropoffs.process, jsOrStr, h]
    · intro s hs hne; simp [DailyDropoffs.process, jsOrStr, hs, hne]
  · intro res s f
    refine ⟨?_, ?_, ?_, ?_⟩
    · intro h; simp [DailyAuths.process, jsOrStr, h]
    · intro h; simp [DailyAuths.process, jsOrStr, h]
    · simp [DailyAuths.process]
    · simp [DailyAuths.process]

theorem c7_witness :
    (DailyDropoffs.process [c7Raw]).map (fun p => p.issuer) = ["(No Issuer)"]
    ∧ (DailyDropoffs.process [c7Raw]).map (fun p => p.friendly_name) = ["(No App)"]
    ∧ (DailyDropoffs.process [c7Raw]).map (fun p => p.agency) = ["a1"]
    ∧ (DailyAuths.process c7Rep).map (fun p => p.agency) = ["agency1"] :=
  ⟨((c7_amended.1 c7Raw).1 (Or.inl rfl)),
    ((c7_amended.1 c7Raw).2.2.2.2.1 (Or.inr rfl)),
    ((c7_amended.1 c7Raw).2.2.2.1 "a1" rfl (by decide)),
    ((c7_amended.2 c7Res 0 0).2.1 (by decide))⟩

/-- C2 counterexample: with a zero divisor the funnel ratio is not always 0 —
`welcome = 0, agreement = 5` makes `percentOfFirst(agreement) = Infinity`
(`5 / 0` is truthy, so the `|| 0` guard does not fire); and the
account-deletions ratio has no guard at all: a week with both sums zero
yields `NaN`. -/
theorem c2_counterexample :
    ((DailyDropoffs.toStepCounts c2Row DailyDropoffs.FunnelMode.overall).getD 1
        default).percentOfFirst = JsNum.inf
    ∧ JsNum.inf ≠ JsNum.val 0
    ∧ AccountDeletions.formatData [c2Reg] = [{ date := 3, value := JsNum.nan }]
    ∧ JsNum.nan ≠ JsNum.val 0 := by
  refine ⟨by decide, by decide, ?_, by decide⟩
  decide

/-- C2 amended: in the funnel ratios the `|| 0` guard turns only the `NaN`
of `0 / 0` into `0`: with a zero divisor the ratio is `0` exactly when the
step count is also `0`, and `Infinity` otherwise; with a nonzero divisor the
ratio is the finite quotient.  The account-deletions ratio is unguarded and
yields `NaN` for a week with zero deletions and zero registrations. -/
theorem c2_amended :
    (∀ (row : DailyDropoffs.DailyDropoffsRow) (mode : DailyDropoffs.FunnelMode) (i : ℕ)
        (sc : DailyDropoffs.StepCount),
      (DailyDropoffs.toStepCounts row mode)[i]? = some sc →
      (row.steps ((DailyDropoffs.funnelSteps mode).getD 0 default).key = 0 →
          (sc.count = 0 → sc.percentOfFirst = JsNum.val 0)
          ∧ (sc.count ≠ 0 → sc.percentOfFirst = JsNum.inf))
      ∧ (row.steps ((DailyDropoffs.funnelSteps mode).getD 0 default).key ≠ 0 →
          sc.percentOfFirst = JsNum.val ((sc.count : ℚ) /
            (row.steps ((DailyDropoffs.funnelSteps mode).getD 0 default).key : ℚ)))
      ∧ ((if i = 0 then row.steps ((DailyDropoffs.funnelSteps mode).getD 0 default).key
            else row.steps ((DailyDropoffs.funnelSteps mode).getD (i - 1) default).key) = 0 →
          (sc.count = 0 → sc.percentOfPrevious = JsNum.val 0)
          ∧ (sc.count ≠ 0 → sc.percentOfPrevious = JsNum.inf)))
    ∧ (∀ r : AccountDeletions.ProcessedResult,
        r.deletedUsers = 0 → r.fullyRegisteredUsers = 0 →
        AccountDeletions.formatData [r] =
          [{ date := AccountDeletions.getStartOfWeek r.date, value := JsNum.nan }]) := by
  constructor
  · intro row mode i sc h
    simp only [DailyDropoffs.toStepCounts] at h
    rw [getElem?_mapIdxFrom] at h
    cases hsi : (DailyDropoffs.funnelSteps mode)[i]? with
    | none => rw [hsi] at h; simp at h
    | some s =>
        rw [hsi] at h
        simp only [Option.map_some', Option.some.injEq, Nat.zero_add] at h
        subst h
        refine ⟨?_, ?_, ?_⟩
        · intro hfc
          simp only [List.getD_eq_getElem?_getD] at hfc
          constructor
          · intro hc
            simp only at hc
            simp [jsDiv, jsOr0, hfc, hc]
          · intro hc
            simp only at hc
            simp [jsDiv, jsOr0, hfc, hc]
        · intro hfc
          simp only [List.getD_eq_getElem?_getD] at hfc
          simp [jsDiv, jsOr0, hfc]
        · intro hpv
          simp only [List.getD_eq_getElem?_getD] at hpv
          constructor
          · intro hc
            simp only at hc
            simp [jsDiv, jsOr0, hpv, hc]
          · intro hc
            simp only at hc
            simp [jsDiv, jsOr0, hpv, hc]
  · intro r hd hf
    simp [AccountDeletions.formatData, groupBy, keyOrder, keyInsert, hd, hf, jsDiv]

theorem c2_witness :
    ((DailyDropoffs.toStepCounts c2ZRow DailyDropoffs.FunnelMode.overall).getD 1
        default).percentOfFirst = JsNum.val 0
    ∧ AccountDeletions.formatData [c2Reg] = [{ date := 3, value := JsNum.nan }] := by
  constructor
  · have h1 : (DailyDropoffs.toStepCounts c2ZRow DailyDropoffs.FunnelMode.overall)[1]? =
        some c2Sc0 := by decide
    have h2 := ((c2_amended.1 c2ZRow DailyDropoffs.FunnelMode.overall 1 c2Sc0 h1).1
      (by decide)).1 (by decide)
    have h3 : (DailyDropoffs.toStepCounts c2ZRow DailyDropoffs.FunnelMode.overall).getD 1
        default = c2Sc0 := by decide
    rw [h3]
    exact h2
  · have h4 := c2_amended.2 c2Reg rfl rfl
    simpa using h4

/-! ## Claim C3 — body row length vs header length -/
theorem mapIdxFrom_weight_sum_pos {g : ℕ → α → β} {w : β → ℕ}
    (hpos : ∀ n a, n ≠ 0 → w (g n a) = 2) :
    ∀ (l : List α) (n : ℕ), n ≠ 0 → ((mapIdxFrom g n l).map w).sum = 2 * l.length := by
  intro l
  induction l with
  | nil => intro n h; simp [mapIdxFrom]
  | cons a l ih =>
      intro n h
      simp only [mapIdxFrom, List.map_cons, List.sum_cons, hpos n a h,
        ih (n + 1) (Nat.succ_ne_zero n), List.length_cons]
      omega

theorem mapIdxFrom_weight_sum_zero {g : ℕ → α → β} {w : β → ℕ}
    (h0 : ∀ a, w (g 0 a) = 1) (hpos : ∀ n a, n ≠ 0 → w (g n a) = 2) :
    ∀ (l : List α), l ≠ [] → ((mapIdxFrom g 0 l).map w).sum = 2 * l.length - 1 := by
  intro l hne
  cases l with
  | nil => exact absurd rfl hne
  | cons a t =>
      simp only [mapIdxFrom, List.map_cons, List.sum_cons, h0 a,
        mapIdxFrom_weight_sum_pos hpos t 1 (Nat.one_ne_zero), List.length_cons]
      omega

/-- C3 counterexample: in the funnel table the header array has 13 cells
(2 + 11 step cells) while every body row has 23 cells (2 + 1 + 2·10), because
every step header cell after the first spans two columns — so body rows do
not have the same number of cells as the header. -/
theorem c3_counterexample :
    ((DropoffsV2.tabulate [c3Row] DailyDropoffs.FunnelMode.overall).header).length = 13
    ∧ (((DropoffsV2.tabulate [c3Row] DailyDropoffs.FunnelMode.overall).body).getD 0 []).length = 23
    ∧ (13 : ℕ) ≠ 23 := by
  refine ⟨by decide, by decide, by decide⟩

/-- C3 amended: in the two daily-auths tables every body row has exactly as
many cells as the header; in the funnel table every body row has as many
cells as the header spans **columns** (counting each step header cell's
`colSpan`), not as many as the header has cells. -/
theorem c3_amended :
    (∀ (results : Option (List DailyAuths.ProcessedResult)) (fa : Option String)
        (fi : Option ℕ), ∀ row ∈ (DailyAuths.tabulate results fa fi).body,
        row.length = (DailyAuths.tabulate results fa fi).header.length)
    ∧ (∀ (results : Option (List DailyAuths.ProcessedResult)) (fi : Option ℕ),
        ∀ row ∈ (DailyAuths.tabulateSumByAgency results fi).body,
        row.length = (DailyAuths.tabulateSumByAgency results fi).header.length)
    ∧ (∀ (rows : List DailyDropoffs.DailyDropoffsRow) (mode : DailyDropoffs.FunnelMode),
        ∀ row ∈ (DropoffsV2.tabulate rows mode).body,
        row.length = colSpanLen ((DropoffsV2.tabulate rows mode).header)) := by
  refine ⟨?_, ?_, ?_⟩
  · intro results fa fi row hrow
    simp only [DailyAuths.tabulate] at hrow ⊢
    rcases List.mem_flatMap.mp hrow with ⟨ag, hag, hrow⟩
    rcases List.mem_flatMap.mp hrow with ⟨is, his, hrow⟩
    rcases List.mem_map.mp hrow with ⟨il, hil, rfl⟩
    simp [List.length_append, List.length_map]
  · intro results fi row hrow
    simp only [DailyAuths.tabulateSumByAgency] at hrow ⊢
    rcases List.mem_flatMap.mp hrow with ⟨ag, hag, hrow⟩
    rcases List.mem_map.mp hrow with ⟨il, hil, rfl⟩
    simp [List.length_append, List.length_map]
  · intro rows mode row hrow
    simp only [DropoffsV2.tabulate] at hrow ⊢
    rcases List.mem_map.mp hrow with ⟨r, hr, rfl⟩
    have hL : 0 < (DailyDropoffs.funnelSteps mode).length := by
      cases mode <;> decide
    have hsc : (DailyDropoffs.toStepCounts r mode).length =
        (DailyDropoffs.funnelSteps mode).length := by
      simp [DailyDropoffs.toStepCounts, length_mapIdxFrom]
    have hbody : ((mapIdxFrom DropoffsV2.stepCells 0
        (DailyDropoffs.toStepCounts r mode)).flatten).length =
        2 * (DailyDropoffs.funnelSteps mode).length - 1 := by
      rw [List.length_flatten]
      rw [mapIdxFrom_weight_sum_zero (fun a => rfl)
        (fun n a hn => by simp [DropoffsV2.stepCells, hn])]
      · rw [hsc]
      · intro hnil
        rw [hnil] at hsc
        simp at hsc
        omega
    have hhead : (((mapIdxFrom
        (fun idx s => Cell.thSpan (if idx = 0 then 1 else 2) s.title)
        0 (DailyDropoffs.funnelSteps mode)).map Cell.colSpanOf)).sum =
        2 * (DailyDropoffs.funnelSteps mode).length - 1 := by
      rw [mapIdxFrom_weight_sum_zero (fun a => rfl)
        (fun n a hn => by simp [Cell.colSpanOf, hn])]
      exact List.length_pos.mp hL
    simp only [colSpanLen, List.map_append, List.sum_append, List.length_append,
      List.length_cons, List.length_nil, hbody]
    simp only [List.map_cons, List.map_nil, List.sum_cons, List.sum_nil, Cell.colSpanOf, hhead]
    omega

theorem c3_witness :
    ((DailyAuths.tabulate (some c3AuthRows) none none).body.getD 0 []).length =
      (DailyAuths.tabulate (some c3AuthRows) none none).header.length
    ∧ ((DailyAuths.tabulateSumByAgency (some c3AuthRows) none).body.getD 0 []).length =
      (DailyAuths.tabulateSumByAgency (some c3AuthRows) none).header.length
    ∧ (((DropoffsV2.tabulate [c3Row] DailyDropoffs.FunnelMode.overall).body).getD 0 []).length =
      colSpanLen ((DropoffsV2.tabulate [c3Row] DailyDropoffs.FunnelMode.overall).header) := by
  refine ⟨?_, ?_, ?_⟩
  · exact c3_amended.1 (some c3AuthRows) none none _ (by decide)
  · exact c3_amended.2.1 (some c3AuthRows) none _ (by decide)
  · exact c3_amended.2.2 [c3Row] DailyDropoffs.FunnelMode.overall _ (by decide)

/-! ## Supporting lemmas about `aggregate` -/
theorem headI_mem [Inhabited α] {l : List α} (h : l ≠ []) : l.headI ∈ l := by
  cases l with
  | nil => exact absurd rfl h
  | cons a t => simp [List.headI]

namespace DailyDropoffs

theorem stepTotals_eq_sum (bin : List DailyDropoffsRow) (k : Step) :
    stepTotals bin k = (bin.map (fun r => r.steps k)).sum := by
  suffices haux : ∀ (l : List DailyDropoffsRow) (acc : ℕ),
      l.foldl (fun oldCount row => row.steps k + oldCount) acc =
        (l.map (fun r => r.steps k)).sum + acc by
    simpa [stepTotals] using haux bin 0
  intro l
  induction l with
  | nil => intro acc; simp
  | cons r l ih =>
      intro acc
      simp only [List.foldl_cons, List.map_cons, List.sum_cons, ih]
      omega

theorem aggLt_asymm : ∀ a b, aggLt a b = true → aggLt b a = false := by
  intro a b h
  simp only [aggLt] at h ⊢
  exact ltByKey2_asymm _ _ a b h

theorem aggLt_transNot : ∀ a b c, aggLt a b = true → aggLt c b = false → aggLt a c = true := by
  intro a b c h1 h2
  simp only [aggLt] at h1 h2 ⊢
  exact ltByKey2_transNot _ _ a b c h1 h2

/-- Every group reaching `aggregate`'s `map` step carries its issuer as key
and the corresponding filtered bin. -/
theorem aggregate_group_spec {rows : List DailyDropoffsRow}
    {g : String × List DailyDropoffsRow}
    (hg : g ∈ sortWith aggLt (groupBy (fun d => d.issuer) rows)) :
    g.2 = rows.filter (fun d => d.issuer = g.1) ∧ g.2.headI.issuer = g.1 := by
  have hg' : g ∈ groupBy (fun d => d.issuer) rows := mem_sortWith.mp hg
  rcases groupBy_mem hg' with ⟨-, hbin⟩
  have hne : g.2 ≠ [] := groupBy_bin_ne_nil hg'
  exact ⟨hbin, groupBy_bin_key hg' _ (headI_mem hne)⟩

/-- The issuers of `aggregate`'s output are strictly ascending (in code-unit
order): the groups are sorted by issuer and issuer keys are distinct. -/
theorem aggregate_issuers_strict_sorted (rows : List DailyDropoffsRow) :
    (aggregate rows).Pairwise (fun a b => a.issuer.data < b.issuer.data) := by
  unfold aggregate
  rw [List.pairwise_map]
  have hsorted : (sortWith aggLt (groupBy (fun d => d.issuer) rows)).Pairwise
      (fun a b => aggLt b a = false) :=
    sortWith_sorted aggLt_asymm aggLt_transNot _
  have hnodup : ((sortWith aggLt (groupBy (fun d => d.issuer) rows)).map
      (fun g => g.1)).Nodup := by
    have hperm := (sortWith_perm aggLt (groupBy (fun d => d.issuer) rows)).map
      (fun g => g.1)
    have hG : (groupBy (fun d => d.issuer) rows).map (fun g => g.1) =
        keyOrder (fun d => d.issuer) rows := by
      simp only [groupBy, List.map_map]
      have hid : ∀ k ∈ keyOrder (fun d => d.issuer) rows,
          ((fun g : String × List DailyDropoffsRow => g.1) ∘
            (fun k => (k, rows.filter (fun r => r.issuer = k)))) k = id k :=
        fun k _ => rfl
      rw [List.map_congr_left hid, List.map_id]
    rw [hperm.nodup_iff, hG]
    exact keyOrder_nodup _ _
  have hne : (sortWith aggLt (groupBy (fun d => d.issuer) rows)).Pairwise
      (fun a b => a.1 ≠ b.1) := List.pairwise_map.mp hnodup
  refine ((hsorted.and hne).imp_of_mem ?_)
  intro a b ha hb hab
  rcases hab with ⟨hlt, hne'⟩
  have hka := (aggregate_group_spec (mem_sortWith.mpr (mem_sortWith.mp ha))).2
  have hkb := (aggregate_group_spec (mem_sortWith.mpr (mem_sortWith.mp hb))).2
  simp only [mergeBin]
  rw [hka, hkb]
  have h1 : ¬ ((b.1).data < (a.1).data ∨
      ((b.1).data = (a.1).data ∧ (b.2.headI.friendly_name).data <
        (a.2.headI.friendly_name).data)) := by
    intro hc
    have : aggLt b a = true := by
      simp only [aggLt]
      exact ltByKey2_iff.mpr hc
    rw [this] at hlt
    exact absurd hlt (by decide)
  push_neg at h1
  obtain ⟨hle, -⟩ := h1
  rcases lt_or_eq_of_le hle with h | h
  · exact h
  · exact absurd (String.ext h) hne'

end DailyDropoffs

/-! ## Claim C10 — idempotence of the funnel `aggregate` -/
/-- C10: `aggregate` is idempotent — its output has one row per distinct
issuer, sorted strictly by issuer, and re-aggregating singleton groups
reproduces each row (metadata from the row itself, step sums over a
singleton). -/
theorem c10_aggregate_idempotent (rows : List DailyDropoffs.DailyDropoffsRow) :
    DailyDropoffs.aggregate (DailyDropoffs.aggregate rows) =
      DailyDropoffs.aggregate rows := by
  have hpw := DailyDropoffs.aggregate_issuers_strict_sorted rows
  have hnodup : ((DailyDropoffs.aggregate rows).map (fun r => r.issuer)).Nodup := by
    refine List.pairwise_map.mpr (hpw.imp ?_)
    intro a b h heq
    exact absurd (congrArg String.data heq) (ne_of_lt h)
  have hgroup := groupBy_of_nodup_keys hnodup
  have hsort : sortWith DailyDropoffs.aggLt
      ((DailyDropoffs.aggregate rows).map (fun r => (r.issuer, [r]))) =
      (DailyDropoffs.aggregate rows).map (fun r => (r.issuer, [r])) := by
    apply sortWith_eq_self
    refine List.pairwise_map.mpr (hpw.imp ?_)
    intro a b h
    rw [Bool.eq_false_iff]
    intro hc
    simp only [DailyDropoffs.aggLt] at hc
    rcases ltByKey2_iff.mp hc with h' | ⟨he, -⟩
    · exact lt_asymm h h'
    · exact absurd he (ne_of_gt h)
  have hsingle : ∀ r ∈ DailyDropoffs.aggregate rows,
      DailyDropoffs.mergeBin (r.issuer, [r]) = r := by
    intro r _
    have hsteps : (fun k => DailyDropoffs.stepTotals [r] k) = r.steps :=
      funext fun k => by simp [DailyDropoffs.stepTotals]
    unfold DailyDropoffs.mergeBin
    cases r
    simp only [List.headI] at hsteps ⊢
    rw [hsteps]
  conv_lhs => rw [DailyDropoffs.aggregate]
  rw [hgroup, hsort, List.map_map]
  rw [List.map_congr_left (fun r hr => by
    simpa using hsingle r hr)]
  exact List.map_id _

/-! ## Claim C1 — per-day cells: first match vs sum; funnel step sums -/
/-- If no two rows of `l` share a date, the first matching count for a date
(`filter(...)[0]?.count ?? 0`) equals the sum of all matching counts. -/
theorem headCount_eq_sum {l : List DailyAuths.ProcessedResult}
    (h : l.Pairwise (fun r s => r.date ≠ s.date)) (date : ℕ) :
    (((l.filter (fun d => d.date = date)).head?).map (fun d => d.count)).getD 0 =
      ((l.filter (fun d => d.date = date)).map (fun d => d.count)).sum := by
  have hf := h.filter (fun d => decide (d.date = date))
  cases hfil : l.filter (fun d => d.date = date) with
  | nil => simp [hfil]
  | cons x t =>
      cases t with
      | nil => simp [hfil]
      | cons y t2 =>
          exfalso
          rw [hfil] at hf
          have hxy := (List.pairwise_cons.mp hf).1 y (by simp)
          have hx : x.date = date := by
            have h1 : x ∈ l.filter (fun d => d.date = date) := by
              rw [hfil]; simp
            simpa using (List.mem_filter.mp h1).2
          have hy : y.date = date := by
            have h1 : y ∈ l.filter (fun d => d.date = date) := by
              rw [hfil]; simp
            simpa using (List.mem_filter.mp h1).2
          exact hxy (hx.trans hy.symm)

/-- C1 counterexample: with two rows of the same group on the same day
(counts 100 and 1), the produced day cell is 100 — the **first** matching
row's count — while the sum of the group's counts on that day is 101. -/
theorem c1_counterexample :
    (DailyAuths.tabulate (some c1Rows) none none).body =
      [[Cell.str "agency1", Cell.span "issuer1" (some "app1"), Cell.str "1",
        Cell.nat 100, Cell.nat 100]]
    ∧ (c1Rows.map (fun r => r.count)).sum = 101 := by
  refine ⟨by decide, by decide⟩

/-- C1 amended: the daily-auths `tabulate` takes the **first** matching row's
count per day, which coincides with the per-day sum exactly when no two input
rows share (agency, issuer, IAL, date) — under that uniqueness hypothesis it
equals the sum-based table; the funnel `aggregate` genuinely sums: each
output row's step counts are the sums of that step over all input rows with
the row's issuer. -/
theorem c1_amended :
    (∀ (results : List DailyAuths.ProcessedResult) (fa : Option String) (fi : Option ℕ),
      results.Pairwise (fun r s =>
        ¬ (r.agency = s.agency ∧ r.issuer = s.issuer ∧ r.ial = s.ial ∧ r.date = s.date)) →
      DailyAuths.tabulate (some results) fa fi = DailyAuths.tabulateSummed (some results) fa fi)
    ∧ (∀ (rows : List DailyDropoffs.DailyDropoffsRow) (r : DailyDropoffs.DailyDropoffsRow),
      r ∈ DailyDropoffs.aggregate rows → ∀ k : DailyDropoffs.Step,
      r.steps k = ((rows.filter (fun x => x.issuer = r.issuer)).map
        (fun x => x.steps k)).sum) := by
  constructor
  · intro results fa fi hPW
    simp only [DailyAuths.tabulate, DailyAuths.tabulateSummed, Option.getD_some]
    congr 1
    apply List.flatMap_congr
    intro ag hag
    apply List.flatMap_congr
    intro is his
    apply List.map_congr_left
    intro il hil
    have hAg : ag.2 = (results.filter
        (fun d => DailyAuths.passAgency fa d && DailyAuths.passIal fi d)).filter
        (fun d => d.agency = ag.1) := (groupBy_mem (mem_sortWith.mp hag)).2
    have hIs : is.2 = ag.2.filter (fun d => d.issuer = is.1) :=
      (groupBy_mem (mem_sortWith.mp his)).2
    have hIl : il.2 = is.2.filter (fun d => d.ial = il.1) := (groupBy_mem hil).2
    have hPW4 : il.2.Pairwise (fun r s =>
        ¬ (r.agency = s.agency ∧ r.issuer = s.issuer ∧ r.ial = s.ial ∧ r.date = s.date)) := by
      rw [hIl, hIs, hAg]
      exact ((hPW.filter _).filter _).filter _ |>.filter _
    have hDates : il.2.Pairwise (fun r s => r.date ≠ s.date) := by
      refine hPW4.imp_of_mem ?_
      intro r s hr hs hrs hdate
      have hrIl := List.mem_filter.mp (hIl ▸ hr)
      have hsIl := List.mem_filter.mp (hIl ▸ hs)
      have hrIs := List.mem_filter.mp (hIs ▸ hrIl.1)
      have hsIs := List.mem_filter.mp (hIs ▸ hsIl.1)
      have hrAg := List.mem_filter.mp (hAg ▸ hrIs.1)
      have hsAg := List.mem_filter.mp (hAg ▸ hsIs.1)
      refine hrs ⟨?_, ?_, ?_, hdate⟩
      · have h1 : r.agency = ag.1 := by simpa using hrAg.2
        have h2 : s.agency = ag.1 := by simpa using hsAg.2
        exact h1.trans h2.symm
      · have h1 : r.issuer = is.1 := by simpa using hrIs.2
        have h2 : s.issuer = is.1 := by simpa using hsIs.2
        exact h1.trans h2.symm
      · have h1 : r.ial = il.1 := by simpa using hrIl.2
        have h2 : s.ial = il.1 := by simpa using hsIl.2
        exact h1.trans h2.symm
    have hCounts : (sortWith ltNat
          (keyOrder (fun d => d.date) (results.filter
            (fun d => DailyAuths.passAgency fa d && DailyAuths.passIal fi d)))).map
          (fun date => (((il.2.filter (fun d => d.date = date)).head?).map
            (fun d => d.count)).getD 0) =
        (sortWith ltNat
          (keyOrder (fun d => d.date) (results.filter
            (fun d => DailyAuths.passAgency fa d && DailyAuths.passIal fi d)))).map
          (fun date => ((il.2.filter (fun d => d.date = date)).map
            (fun d => d.count)).sum) := by
      apply List.map_congr_left
      intro date _
      exact headCount_eq_sum hDates date
    rw [hCounts]
  · intro rows r hr k
    unfold DailyDropoffs.aggregate at hr
    rcases List.mem_map.mp hr with ⟨g, hg, rfl⟩
    obtain ⟨hbin, hkey⟩ := DailyDropoffs.aggregate_group_spec hg
    simp only [DailyDropoffs.mergeBin]
    rw [DailyDropoffs.stepTotals_eq_sum]
    simp only [hkey]
    rw [← hbin]

theorem c1_witness :
    DailyAuths.tabulate (some c1WRows) none none =
      DailyAuths.tabulateSummed (some c1WRows) none none
    ∧ ((DailyDropoffs.aggregate c1FRows).getD 0 default).steps DailyDropoffs.Step.welcome =
      ((c1FRows.filter (fun x => x.issuer =
          ((DailyDropoffs.aggregate c1FRows).getD 0 default).issuer)).map
        (fun x => x.steps DailyDropoffs.Step.welcome)).sum :=
  ⟨c1_amended.1 c1WRows none none (by decide),
    c1_amended.2 c1FRows _ (by decide) DailyDropoffs.Step.welcome⟩

theorem chain'_map_of_const {R : β → β → Prop} {f : α → β} {c : β}
    (hf : ∀ a, f a = c) (hc : R c c) (l : List α) : List.Chain' R (l.map f) := by
  induction l with
  | nil => simp
  | cons a t ih =>
      cases t with
      | nil => simp
      | cons b t2 =>
          simp only [List.map_cons] at ih ⊢
          exact List.chain'_cons.mpr ⟨hf a ▸ hf b ▸ hc, ih⟩

/-- The groups produced by `groupBy` and sorted with `ascending` on their
keys are strictly ascending in the keys (group keys are distinct). -/
theorem sortWith_ltByKey_groupBy_strict {α : Type _} (key : α → String) (l : List α) :
    (sortWith (ltByKey (fun g : String × List α => g.1)) (groupBy key l)).Pairwise
      (fun p q => p.1.data < q.1.data) := by
  have hsorted := sortWith_sorted (ltByKey_asymm (fun g : String × List α => g.1))
    (ltByKey_transNot _) (groupBy key l)
  have hnodup : ((sortWith (ltByKey (fun g : String × List α => g.1)) (groupBy key l)).map
      (fun g => g.1)).Nodup := by
    have hperm := (sortWith_perm (ltByKey (fun g : String × List α => g.1))
      (groupBy key l)).map (fun g : String × List α => g.1)
    have hG : (groupBy key l).map (fun g => g.1) = keyOrder key l := by
      simp only [groupBy, List.map_map]
      have hid : ∀ k ∈ keyOrder key l, ((fun g : String × List α => g.1) ∘
          (fun k => (k, l.filter (fun r => key r = k)))) k = id k := fun k _ => rfl
      rw [List.map_congr_left hid, List.map_id]
    rw [hperm.nodup_iff, hG]
    exact keyOrder_nodup _ _
  have hne := List.pairwise_map.mp hnodup
  refine (hsorted.and hne).imp ?_
  rintro p q ⟨hlt, hne'⟩
  have h1 : ¬ (q.1).data < (p.1).data := by
    intro hc
    have h2 : ltByKey (fun g : String × List α => g.1) q p = true := ltByKey_iff.mpr hc
    rw [h2] at hlt
    exact absurd hlt (by decide)
  rcases lt_or_eq_of_le (not_lt.mp h1) with h | h
  · exact h
  · exact absurd (String.ext h) hne'

namespace DropoffsV2

open DailyDropoffs

theorem rowLt_asymm : ∀ a b, rowLt a b = true → rowLt b a = false := by
  intro a b h
  simp only [rowLt] at h ⊢
  exact ltByKey2_asymm _ _ a b h

theorem rowLt_transNot : ∀ a b c, rowLt a b = true → rowLt c b = false → rowLt a c = true := by
  intro a b c h1 h2
  simp only [rowLt] at h1 h2 ⊢
  exact ltByKey2_transNot _ _ a b c h1 h2

end DropoffsV2

/-- C6 counterexample: the funnel `aggregate` orders its output by issuer
(then friendly name), not by agency — with issuers "b"/"a" under agencies
"A"/"Z" the output agencies come out ["Z", "A"], which is not ascending. -/
theorem c6_counterexample :
    (DailyDropoffs.aggregate c6Rows).map (fun r => r.agency) = ["Z", "A"]
    ∧ ¬ (("Z" : String).data < ("A" : String).data
          ∨ ("Z" : String).data = ("A" : String).data) := by
  refine ⟨by decide, by decide⟩

/-- C6 amended: the daily-auths `tabulate` emits body rows ascending by
agency, then by issuer within an agency; the funnel `tabulate` emits rows
ascending by agency, then friendly name; but the funnel `aggregate` orders
its output ascending by **issuer** (then first-row friendly name), not by
agency.  All comparisons are case-sensitive code-unit lexicographic. -/
theorem c6_amended :
    (∀ (results : Option (List DailyAuths.ProcessedResult)) (fa : Option String)
        (fi : Option ℕ),
      List.Chain' lexLe (((DailyAuths.tabulate results fa fi).body).map rowKeyA))
    ∧ (∀ (rows : List DailyDropoffs.DailyDropoffsRow) (mode : DailyDropoffs.FunnelMode),
      List.Chain' lexLe (((DropoffsV2.tabulate rows mode).body).map rowKeyF))
    ∧ (∀ rows : List DailyDropoffs.DailyDropoffsRow,
      List.Chain' (fun a b => a.issuer.data < b.issuer.data)
        (DailyDropoffs.aggregate rows)) := by
  refine ⟨?_, ?_, ?_⟩
  · intro results fa fi
    simp only [DailyAuths.tabulate]
    rw [List.map_flatMap]
    apply chain_flatMap
    · have hstrict := sortWith_ltByKey_groupBy_strict
        (fun d : DailyAuths.ProcessedResult => d.agency)
        ((results.getD []).filter
          (fun d => DailyAuths.passAgency fa d && DailyAuths.passIal fi d))
      refine hstrict.imp ?_
      intro p q hpq x hx y hy
      rcases List.mem_map.mp hx with ⟨rowx, hrowx, rfl⟩
      rcases List.mem_flatMap.mp hrowx with ⟨isx, hisx, hrowx⟩
      rcases List.mem_map.mp hrowx with ⟨ilx, hilx, rfl⟩
      rcases List.mem_map.mp hy with ⟨rowy, hrowy, rfl⟩
      rcases List.mem_flatMap.mp hrowy with ⟨isy, hisy, hrowy⟩
      rcases List.mem_map.mp hrowy with ⟨ily, hily, rfl⟩
      exact Or.inl hpq
    · intro p hp
      rw [List.map_flatMap]
      apply chain_flatMap
      · have hstrict2 := sortWith_ltByKey_groupBy_strict
          (fun d : DailyAuths.ProcessedResult => d.issuer) p.2
        refine hstrict2.imp ?_
        intro i1 i2 h12 x hx y hy
        rcases List.mem_map.mp hx with ⟨rx, hrx, rfl⟩
        rcases List.mem_map.mp hrx with ⟨il1, hil1, rfl⟩
        rcases List.mem_map.mp hy with ⟨ry, hry, rfl⟩
        rcases List.mem_map.mp hry with ⟨il2, hil2, rfl⟩
        exact Or.inr ⟨rfl, Or.inl h12⟩
      · intro is his
        rw [List.map_map]
        exact chain'_map_of_const (c := (p.1, is.1)) (fun il => rfl)
          (Or.inr ⟨rfl, Or.inr rfl⟩) _
  · intro rows mode
    simp only [DropoffsV2.tabulate]
    rw [List.map_map]
    refine List.Pairwise.chain' ?_
    rw [List.pairwise_map]
    refine (sortWith_sorted DropoffsV2.rowLt_asymm DropoffsV2.rowLt_transNot rows).imp ?_
    intro a b hab
    show lexLe (a.agency, a.friendly_name) (b.agency, b.friendly_name)
    have h1 : ¬ (b.agency.data < a.agency.data ∨
        (b.agency.data = a.agency.data ∧ b.friendly_name.data < a.friendly_name.data)) := by
      intro hc
      have h2 : DropoffsV2.rowLt b a = true := by
        simp only [DropoffsV2.rowLt]
        exact ltByKey2_iff.mpr hc
      rw [h2] at hab
      exact absurd hab (by decide)
    push_neg at h1
    obtain ⟨hle, himp⟩ := h1
    unfold lexLe
    rcases lt_or_eq_of_le hle with h | h
    · exact Or.inl h
    · refine Or.inr ⟨h, ?_⟩
      rcases lt_or_eq_of_le (himp h.symm) with h2 | h2
      · exact Or.inl h2
      · exact Or.inr h2
  · intro rows
    exact (DailyDropoffs.aggregate_issuers_strict_sorted rows).chain'

/-! ## Claim C9 — aggregate-then-filter vs filter-then-aggregate -/
theorem keyOrder_filter {κ : Type _} [DecidableEq κ] {key : α → κ} {p : α → Bool}
    {P : κ → Bool} (l : List α) (hpk : ∀ r ∈ l, p r = P (key r)) :
    keyOrder key (l.filter p) = (keyOrder key l).filter P := by
  suffices haux : ∀ (l : List α) (acc : List κ), (∀ r ∈ l, p r = P (key r)) →
      ((l.filter p).foldl (fun ks r => keyInsert ks (key r)) (acc.filter P)) =
        (l.foldl (fun ks r => keyInsert ks (key r)) acc).filter P by
    simpa [keyOrder] using haux l [] hpk
  intro l
  induction l with
  | nil => intro acc _; simp
  | cons r l ih =>
      intro acc hall
      have hpr := hall r (by simp)
      by_cases hp : p r = true
      · have hP : P (key r) = true := by rw [← hpr]; exact hp
        rw [List.filter_cons_of_pos hp]
        simp only [List.foldl_cons]
        have hstep : keyInsert (acc.filter P) (key r) = (keyInsert acc (key r)).filter P := by
          unfold keyInsert
          by_cases hmem : key r ∈ acc
          · have hmem' : key r ∈ acc.filter P := List.mem_filter.mpr ⟨hmem, hP⟩
            simp [hmem, hmem']
          · have hmem' : key r ∉ acc.filter P := fun hc => hmem (List.mem_of_mem_filter hc)
            simp [hmem, hmem', List.filter_append, hP]
        rw [hstep]
        exact ih (keyInsert acc (key r)) (fun x hx => hall x (by simp [hx]))
      · have hp' : p r = false := by simpa using hp
        have hP : P (key r) = false := by rw [← hpr]; exact hp'
        rw [List.filter_cons_of_neg (by simp [hp'])]
        simp only [List.foldl_cons]
        have hstep : acc.filter P = (keyInsert acc (key r)).filter P := by
          unfold keyInsert
          by_cases hmem : key r ∈ acc
          · simp [hmem]
          · simp [hmem, List.filter_append, hP]
        rw [hstep]
        exact ih _ (fun x hx => hall x (by simp [hx]))

theorem filter_bin_eq {κ : Type _} [DecidableEq κ] {key : α → κ} {p : α → Bool}
    (l : List α) (k : κ) (hk : ∀ r ∈ l, key r = k → p r = true) :
    (l.filter p).filter (fun r => key r = k) = l.filter (fun r => key r = k) := by
  rw [List.filter_comm]
  exact List.filter_eq_self.mpr (fun x hx =>
    hk x (List.mem_of_mem_filter hx) (by simpa using (List.mem_filter.mp hx).2))

/-- When the filter predicate is determined by the grouping key, grouping the
filtered list keeps exactly the groups whose key passes, with their bins
intact. -/
theorem groupBy_filter {κ : Type _} [DecidableEq κ] {key : α → κ} {p : α → Bool}
    {P : κ → Bool} (l : List α) (hpk : ∀ r ∈ l, p r = P (key r)) :
    groupBy key (l.filter p) = (groupBy key l).filter (fun g => P g.1) := by
  unfold groupBy
  rw [keyOrder_filter l hpk, List.filter_map]
  have hpred : (keyOrder key l).filter
      ((fun g : κ × List α => P g.1) ∘ (fun k => (k, l.filter (fun r => key r = k)))) =
      (keyOrder key l).filter P :=
    List.filter_congr (fun k _ => rfl)
  rw [hpred]
  apply List.map_congr_left
  intro k hk
  have hPk : P k = true := by simpa using (List.mem_filter.mp hk).2
  have hbin := @filter_bin_eq _ _ _ key p l k (fun r hr hkey => by
    rw [hpk r hr, hkey]; exact hPk)
  rw [hbin]

/-- C9 counterexample: when one issuer spans two agencies, aggregating first
and filtering to agency "B" gives nothing (the merged row carries the first
row's agency "A"), while filtering first keeps the agency-"B" row — the two
orders disagree. -/
theorem c9_counterexample :
    (DailyDropoffs.aggregate c9Rows).filter (fun d => d.agency = "B") = []
    ∧ (DailyDropoffs.aggregate (c9Rows.filter (fun d => d.agency = "B"))).map
        (fun r => (r.issuer, r.agency, r.steps DailyDropoffs.Step.welcome)) =
      [("i", "B", 2)] := by
  refine ⟨by decide, by decide⟩

/-- C9 amended: provided every issuer determines a single agency among the
input rows (as real report data does), aggregating then filtering by an
agency equals filtering then aggregating. -/
theorem c9_amended :
    ∀ (rows : List DailyDropoffs.DailyDropoffsRow) (a : String),
      (∀ r ∈ rows, ∀ s ∈ rows, r.issuer = s.issuer → r.agency = s.agency) →
      (DailyDropoffs.aggregate rows).filter (fun d => d.agency = a) =
        DailyDropoffs.aggregate (rows.filter (fun d => d.agency = a)) := by
  intro rows a hcons
  unfold DailyDropoffs.aggregate
  rw [List.filter_map]
  have hcongr : (sortWith DailyDropoffs.aggLt
        (groupBy (fun d => d.issuer) rows)).filter
        ((fun d : DailyDropoffs.DailyDropoffsRow => decide (d.agency = a)) ∘
          DailyDropoffs.mergeBin) =
      (sortWith DailyDropoffs.aggLt (groupBy (fun d => d.issuer) rows)).filter
        (fun g => c9P rows a g.1) := by
    apply List.filter_congr
    intro g hg
    obtain ⟨hbin, hkey⟩ := DailyDropoffs.aggregate_group_spec hg
    have hne : g.2 ≠ [] :=
      groupBy_bin_ne_nil (mem_sortWith.mp hg)
    have hhead : g.2.headI ∈ rows := by
      have h1 := headI_mem hne
      nth_rewrite 1 [hbin] at h1
      exact List.mem_of_mem_filter h1
    simp only [Function.comp, DailyDropoffs.mergeBin, c9P]
    apply decide_eq_decide.mpr
    constructor
    · intro hag
      exact ⟨g.2.headI, hhead, hkey, hag⟩
    · rintro ⟨s, hs, hsi, hsa⟩
      have := hcons g.2.headI hhead s hs (by rw [hkey, hsi])
      rw [this]
      exact hsa
  rw [hcongr,
    filter_sortWith DailyDropoffs.aggLt_asymm DailyDropoffs.aggLt_transNot]
  have hpk : ∀ r ∈ rows, decide (r.agency = a) = c9P rows a r.issuer := by
    intro r hr
    simp only [c9P]
    apply decide_eq_decide.mpr
    constructor
    · intro hag
      exact ⟨r, hr, rfl, hag⟩
    · rintro ⟨s, hs, hsi, hsa⟩
      have := hcons r hr s hs hsi.symm
      rw [this]
      exact hsa
  rw [groupBy_filter rows hpk]

theorem c9_witness :
    (DailyDropoffs.aggregate c9WRows).filter (fun d => d.agency = "A") =
      DailyDropoffs.aggregate (c9WRows.filter (fun d => d.agency = "A")) :=
  c9_amended c9WRows "A" (by decide)
